import Mathlib

/-!
# mpw-cli.c : the command-line front end of the Master Password algorithm

A shallow embedding of `src/mpw-cli.c`.  The program is one `main` function plus the
helpers `usage`, `homedir`, `getlinep` and `getpass_stdin`.  Everything `main` observes from
outside (environment variables, the results of `getopt`, standard input, the terminal answers
to `getpass`, the configuration file) is an explicit `Input`; everything it does that can be
observed (text on stderr and stdout, calls into the mpw core library, release of secrets) is
an `Event` in a trace.  The mpw core library (`mpw-algorithm.h`, `mpw-util.h`) is not part of
the file and is a parameter, `Platform`; its functions are taken to return to their caller.
The debugging macro `trc` and the release of the line buffer of the configuration file
(`mpw_free (line, linecap)`) leave no event.
-/

namespace MpwCli

/-! ## C strings and the libc functions used by `main` -/

/-- Content of a NUL-terminated C string: the characters before the terminator. -/
abbrev CStr := List Char

/-- The newline character. -/
def NL : Char := Char.ofNat 10

/-- The NUL character. -/
def NUL : Char := Char.ofNat 0

/-- View of a byte buffer as a C string: it ends at the first NUL. -/
def cstr (buf : List Char) : CStr :=
  buf.takeWhile (fun c => c != NUL)

/-- C `isspace` in the "C" locale: space, and the controls 9 to 13. -/
def isspace (c : Char) : Bool :=
  c.toNat == 32 || (9 ≤ c.toNat && c.toNat ≤ 13)

/-- Value of one decimal digit character. -/
def digitVal (c : Char) : Nat :=
  c.toNat - 48

/-- Value of a run of decimal digits, most significant first. -/
def decValue (ds : List Char) : Nat :=
  ds.foldl (fun n c => 10 * n + digitVal c) 0

/-- libc `atol`, that is `strtol (s, NULL, 10)` with a 64-bit `long`: leading white space, an
optional sign, then the longest run of digits; no digits gives 0; out of range values are
clamped to `LONG_MIN` / `LONG_MAX`. -/
def atol (s : CStr) : Int :=
  match s.dropWhile isspace with
  | [] => 0
  | c :: r =>
    if c = '-' then max (-(2 ^ 63 : Int)) (-(decValue (r.takeWhile Char.isDigit) : Int))
    else if c = '+' then min (2 ^ 63 - 1 : Int) (decValue (r.takeWhile Char.isDigit) : Int)
    else min (2 ^ 63 - 1 : Int) (decValue ((c :: r).takeWhile Char.isDigit) : Int)

/-- The C conversion `(uint32_t) z`. -/
def uint32 (z : Int) : Nat :=
  (z % (2 ^ 32 : Int)).toNat

/-- Conversion `sscanf (s, "%u", &x) == 1`, with the value stored in `x` (glibc, 64-bit
`unsigned long`): leading white space, an optional sign, at least one digit; the number is read
as by `strtoul` and stored in an `unsigned int`.  `none` stands for a return value other
than 1. -/
def sscanf_u (s : CStr) : Option Nat :=
  let body : Bool × List Char :=
    match s.dropWhile isspace with
    | [] => (false, [])
    | c :: r => if c = '-' then (true, r) else if c = '+' then (false, r) else (false, c :: r)
  let ds := body.2.takeWhile Char.isDigit
  if ds.length = 0 then none
  else
    let n := decValue ds
    if 2 ^ 64 ≤ n then some (2 ^ 32 - 1)
    else if body.1 then some ((2 ^ 64 - n) % 2 ^ 32)
    else some (n % 2 ^ 32)

/-- The lines `getline` delivers from a stream, each with its terminating newline when it has
one (the last line of a stream may lack it). -/
def splitLines : List Char → List (List Char)
  | [] => []
  | c :: cs =>
    if c = NL then [c] :: splitLines cs
    else
      match splitLines cs with
      | [] => [[c]]
      | l :: ls => (c :: l) :: ls

/-- libc `getline` on a stream holding `input`: `none` at end of file (return value -1),
otherwise the line read (terminator included) and the rest of the stream. -/
def getline (input : List Char) : Option (List Char × List Char) :=
  match splitLines input with
  | [] => none
  | l :: _ => some (l, input.drop l.length)

/-- libc `strsep (&s, d)` for a one-character delimiter set and a non-NULL `s`: the token
before the first delimiter and the new value of `s` (`none` is NULL: no delimiter found). -/
def strsep (s : CStr) (d : Char) : CStr × Option CStr :=
  match s with
  | [] => ([], none)
  | c :: cs =>
    if c = d then ([], some cs)
    else ((c :: (strsep cs d).1), (strsep cs d).2)

/-! ## The mpw core library, as far as `main` uses it -/

/-- Modelled from the spec: the `MPSiteVariant` enumeration of the missing `mpw-types.h`
(spec 3, SiteVariant: Password, Login, Answer). -/
inductive MPSiteVariant where
  | Password
  | Login
  | Answer
  deriving DecidableEq, Repr

/-- Modelled from the spec: the `MPSiteType` enumeration of the missing `mpw-types.h`
(spec 3, SiteType: Maximum, Long, Medium, Basic, Short, PIN, Name, Phrase). -/
inductive MPSiteType where
  | GeneratedMaximum
  | GeneratedLong
  | GeneratedMedium
  | GeneratedBasic
  | GeneratedShort
  | GeneratedPIN
  | GeneratedName
  | GeneratedPhrase
  deriving DecidableEq, Repr

/-- A master key: the bytes `mpw_masterKeyForUser` returns. -/
abbrev Key := List Nat

/-- What `main` takes from outside the file: the constants and functions of the mpw core
library, whose code is not in `mpw-cli.c`, and one choice C leaves to the compiler.
A pointer argument or result that may be NULL is an `Option`. -/
structure Platform where
  /-- The constant `MPAlgorithmVersionCurrent`. -/
  MPAlgorithmVersionCurrent : Nat
  /-- The function `mpw_variantWithName`. -/
  mpw_variantWithName : CStr → MPSiteVariant
  /-- The function `mpw_typeWithName`. -/
  mpw_typeWithName : CStr → MPSiteType
  /-- The function `mpw_identicon`. -/
  mpw_identicon : Option CStr → Option CStr → CStr
  /-- The function `mpw_masterKeyForUser (fullName, masterPassword, algorithmVersion)`. -/
  mpw_masterKeyForUser : Option CStr → Option CStr → Nat → Option Key
  /-- The function `mpw_passwordForSite (masterKey, siteName, siteType, siteCounter,
  siteVariant, siteContext, algorithmVersion)`. -/
  mpw_passwordForSite :
    Key → Option CStr → MPSiteType → Nat → MPSiteVariant → Option CStr → Nat → Option CStr
  /-- Order in which the two arguments of `strcpy` on line 218 are evaluated (C leaves it
  unspecified): `true` when `strsep (&lineData, "\n")` runs before `strlen (lineData)`. -/
  strsepFirst : Bool

/-! ## Inputs, events and outcomes -/

/-- One result of `getopt (argc, argv, "u:P:t:c:v:V:C:h:s")` other than -1: the value
returned and the globals `optarg` and `optopt` at that moment. -/
structure GetoptRet where
  opt : Char
  optarg : CStr
  optopt : Char
  deriving DecidableEq, Repr

/-- Everything one invocation of `main` reads. -/
structure Input where
  /-- Value of `getenv ("MP_FULLNAME")`. -/
  env_fullname : Option CStr
  /-- Value of `getenv ("MP_SITETYPE")`. -/
  env_sitetype : Option CStr
  /-- Value of `getenv ("MP_SITECOUNTER")`. -/
  env_sitecounter : Option CStr
  /-- Value of `getenv ("MP_ALGORITHM")`. -/
  env_algorithm : Option CStr
  /-- The successive results of `getopt` on the command line, before it returns -1. -/
  opts : List GetoptRet
  /-- The argument `argv[optind]` after option parsing, when `optind < argc`. -/
  site : Option CStr
  /-- The bytes waiting on standard input. -/
  stdin : List Char
  /-- The result of `homedir (".mpw")`. -/
  mpwConfigPath : Option CStr
  /-- The content of the configuration file when `fopen` succeeds. -/
  mpwConfig : Option (List Char)
  /-- The successive results of `getpass`; past the end of the list no non-empty answer ever
  comes. -/
  tty : List (Option CStr)

/-- The texts `main` writes to stderr through `ftl` and `usage`. -/
inductive Msg where
  /-- Text `Invalid MP_ALGORITHM: <s>`. -/
  | invalidAlgorithm (s : CStr)
  /-- Text `Not a version: <s>`. -/
  | notAVersion (s : CStr)
  /-- Text `Missing full name to option: -<c>`. -/
  | missingFullNameTo (c : Char)
  /-- Text `Missing type name to option: -<c>`. -/
  | missingTypeNameTo (c : Char)
  /-- Text `Missing counter value to option: -<c>`. -/
  | missingCounterTo (c : Char)
  /-- Text `Unknown option: -<c>`. -/
  | unknownOption (c : Char)
  /-- Text `Unexpected option: <c>`. -/
  | unexpectedOption (c : Char)
  /-- The usage text. -/
  | usage
  /-- Text `Missing full name.`. -/
  | missingFullName
  /-- Text `Missing site name.`. -/
  | missingSiteName
  /-- Text `Invalid site counter: <n>`. -/
  | invalidSiteCounter (n : Nat)
  /-- Text `Couldn't resolve path for configuration file: <errno>`. -/
  | noConfigPath
  /-- Text `Couldn't derive master key.`. -/
  | noMasterKey
  /-- Text `Couldn't derive site password.`. -/
  | noSitePassword
  deriving DecidableEq, Repr

/-- The three questions `main` asks. -/
inductive Prompt where
  /-- Prompt `Your full name:` of `getlinep`. -/
  | fullName
  /-- Prompt `Site name:` of `getlinep`. -/
  | siteName
  /-- Prompt `Your master password: ` of `getpass`. -/
  | masterPassword
  deriving DecidableEq, Repr

/-- Where a master-secret buffer comes from. -/
inductive SecretSource where
  /-- The copy of the `-P` argument (line 138). -/
  | optionP
  /-- The copy taken from the configuration file (line 218). -/
  | config
  /-- The line read by `getpass_stdin` (line 226). -/
  | stdinLine
  /-- The answer of `getpass` (line 231). -/
  | getpass
  deriving DecidableEq, Repr

/-- What `main` does that can be observed, in order. -/
inductive Event where
  /-- A text is written to stderr. -/
  | err (m : Msg)
  /-- A prompt is shown. -/
  | ask (p : Prompt)
  /-- The summary line 234, with the identicon. -/
  | summary (fullName siteName : Option CStr) (identicon : CStr)
  /-- The variable `masterPassword` receives a new secret buffer. -/
  | secret (src : SecretSource) (s : CStr)
  /-- Call of `mpw_masterKeyForUser`. -/
  | masterKeyForUser (fullName masterPassword : Option CStr) (version : Nat)
  /-- Call of `mpw_freeString`. -/
  | freeString (s : Option CStr)
  /-- Call of `mpw_passwordForSite`. -/
  | passwordForSite (key : Key) (siteName : Option CStr) (siteType : MPSiteType)
      (siteCounter : Nat) (siteVariant : MPSiteVariant) (context : Option CStr) (version : Nat)
  /-- Call of `mpw_free` on the master key. -/
  | free (key : Key)
  /-- The statement `fprintf (stdout, "%s\n", s)`. -/
  | out (s : CStr)
  deriving DecidableEq, Repr

/-- How a run ends when `main` does not return. -/
inductive Halt where
  /-- The process ends through `exit (status)`. -/
  | exit (status : Nat)
  /-- The run reaches behaviour C leaves undefined (NULL passed to `strlen`, a write past
  the end of a `malloc` block). -/
  | undefined
  /-- The run never ends: the password prompt is repeated for ever. -/
  | hang
  deriving DecidableEq, Repr

/-- A piece of the run: either it goes on with a value, or the run stops here; in both cases
with the events of the piece. -/
inductive Step (α : Type) where
  | go (tr : List Event) (a : α)
  | stop (tr : List Event) (h : Halt)
  deriving DecidableEq, Repr

/-- The events of a piece of a run. -/
def Step.trace {α : Type} : Step α → List Event
  | .go tr _ => tr
  | .stop tr _ => tr

/-- A piece of a run after the events `tr0`. -/
def Step.pre {α : Type} (tr0 : List Event) : Step α → Step α
  | .go tr a => .go (tr0 ++ tr) a
  | .stop tr h => .stop (tr0 ++ tr) h

/-- Sequencing: the second piece runs only when the first goes on. -/
def Step.bind {α β : Type} (s : Step α) (f : α → Step β) : Step β :=
  match s with
  | .go tr a => (f a).pre tr
  | .stop tr h => .stop tr h

/-- The macro `ftl`: write to stderr and `exit (2)`. -/
def ftl {α : Type} (m : Msg) : Step α :=
  .stop [.err m] (.exit 2)

/-- The function `usage`: write the usage text to stderr and `exit (0)`. -/
def usage {α : Type} : Step α :=
  .stop [.err .usage] (.exit 0)

/-! ## The state of `main` -/

/-- The local variables of `main`, with the unread part of standard input and the answers
`getpass` still has to give. -/
structure State where
  fullName : Option CStr
  masterPassword : Option CStr
  siteName : Option CStr
  siteType : MPSiteType
  siteTypeString : Option CStr
  siteVariant : MPSiteVariant
  siteVariantString : Option CStr
  siteContextString : Option CStr
  siteCounter : Nat
  siteCounterString : Option CStr
  algorithmVersion : Nat
  algorithmVersionString : Option CStr
  silent : Bool
  stdin : List Char
  tty : List (Option CStr)
  deriving DecidableEq, Repr

/-- The function `getlinep` after its prompt is written: `none` when `getline` fails,
otherwise the buffer with its last character overwritten by NUL, and the rest of stdin. -/
def getlinep (stdin : List Char) : Option (CStr × List Char) :=
  match getline stdin with
  | none => none
  | some (line, rest) => some (cstr line.dropLast, rest)

/-- The function `getpass_stdin`: as `getlinep`, without a prompt. -/
def getpass_stdin (stdin : List Char) : Option (CStr × List Char) :=
  match getline stdin with
  | none => none
  | some (line, rest) => some (cstr line.dropLast, rest)

/-! ## `main`, piece by piece -/

/-- Lines 111-127: the initial values of the locals, and the check of `MP_ALGORITHM`. -/
def readEnvironment (pf : Platform) (inp : Input) : Step State :=
  let st : State :=
    { fullName := inp.env_fullname
      masterPassword := none
      siteName := none
      siteType := MPSiteType.GeneratedLong
      siteTypeString := inp.env_sitetype
      siteVariant := MPSiteVariant.Password
      siteVariantString := none
      siteContextString := none
      siteCounter := 1
      siteCounterString := inp.env_sitecounter
      algorithmVersion := pf.MPAlgorithmVersionCurrent
      algorithmVersionString := inp.env_algorithm
      silent := false
      stdin := inp.stdin
      tty := inp.tty }
  match inp.env_algorithm with
  | none => .go [] st
  | some s =>
    if s.length = 0 then .go [] st
    else
      match sscanf_u s with
      | some n => .go [] { st with algorithmVersion := n }
      | none => ftl (.invalidAlgorithm s)

/-- Lines 131-178: the body of the option loop, for one result of `getopt`. -/
def optionCase (st : State) (g : GetoptRet) : Step State :=
  if g.opt = 'u' then .go [] { st with fullName := some g.optarg }
  else if g.opt = 'P' then
    .go [.secret .optionP g.optarg] { st with masterPassword := some g.optarg }
  else if g.opt = 't' then .go [] { st with siteTypeString := some g.optarg }
  else if g.opt = 'c' then .go [] { st with siteCounterString := some g.optarg }
  else if g.opt = 'v' then .go [] { st with siteVariantString := some g.optarg }
  else if g.opt = 'V' then
    match sscanf_u g.optarg with
    | some n => .go [] { st with algorithmVersion := n }
    | none => ftl (.notAVersion g.optarg)
  else if g.opt = 'C' then .go [] { st with siteContextString := some g.optarg }
  else if g.opt = 's' then .go [] { st with silent := true }
  else if g.opt = 'h' then usage
  else if g.opt = '?' then
    if g.optopt = 'u' then ftl (.missingFullNameTo g.optopt)
    else if g.optopt = 't' then ftl (.missingTypeNameTo g.optopt)
    else if g.optopt = 'c' then ftl (.missingCounterTo g.optopt)
    else ftl (.unknownOption g.optopt)
  else ftl (.unexpectedOption g.opt)

/-- Lines 130-178: the option loop over the results of `getopt`. -/
def readOptions : List GetoptRet → State → Step State
  | [], st => .go [] st
  | g :: gs, st => (optionCase st g).bind (readOptions gs)

/-- Lines 179-180: the site name is the first argument left. -/
def readSiteArgument (inp : Input) (st : State) : Step State :=
  match inp.site with
  | some a => .go [] { st with siteName := some a }
  | none => .go [] st

/-- Lines 183-186: the full name is asked for when it is missing. -/
def resolveFullName (st : State) : Step State :=
  match st.fullName with
  | some _ => .go [] st
  | none =>
    if st.silent then ftl .missingFullName
    else
      match getlinep st.stdin with
      | none => .stop [.ask .fullName, .err .missingFullName] (.exit 2)
      | some (name, rest) => .go [.ask .fullName] { st with fullName := some name, stdin := rest }

/-- Lines 187-190: the site name is asked for when it is missing. -/
def resolveSiteName (st : State) : Step State :=
  match st.siteName with
  | some _ => .go [] st
  | none =>
    if st.silent then ftl .missingSiteName
    else
      match getlinep st.stdin with
      | none => .stop [.ask .siteName, .err .missingSiteName] (.exit 2)
      | some (name, rest) => .go [.ask .siteName] { st with siteName := some name, stdin := rest }

/-- Lines 191-194: conversion and check of the site counter. -/
def convertCounter (st : State) : Step State :=
  let c : Nat :=
    match st.siteCounterString with
    | some s => uint32 (atol s)
    | none => st.siteCounter
  if c < 1 then ftl (.invalidSiteCounter c)
  else .go [] { st with siteCounter := c }

/-- Lines 195-202: the variant, and the site type that follows from it or from its name. -/
def convertType (pf : Platform) (st : State) : Step State :=
  let v : MPSiteVariant :=
    match st.siteVariantString with
    | some s => pf.mpw_variantWithName s
    | none => st.siteVariant
  let t1 : MPSiteType := if v = MPSiteVariant.Login then MPSiteType.GeneratedName else st.siteType
  let t2 : MPSiteType := if v = MPSiteVariant.Answer then MPSiteType.GeneratedPhrase else t1
  let t3 : MPSiteType :=
    match st.siteTypeString with
    | some s => pf.mpw_typeWithName s
    | none => t2
  .go [] { st with siteVariant := v, siteType := t3 }

/-- Outcome of the search of the configuration file. -/
inductive Lookup where
  /-- No line was taken: `masterPassword` keeps its value. -/
  | unchanged
  /-- A line was taken, and `masterPassword` is the copy of this secret. -/
  | found (secret : CStr)
  /-- A line was taken, and line 218 has undefined behaviour on it. -/
  | undefined
  deriving DecidableEq, Repr

/-- Line 218, on the text `lineData` after the first colon of the line taken (`none` when
the line has no colon and `lineData` is NULL): the block is `malloc (strlen (lineData))`, and
`strcpy` writes into it the token before the first newline and a NUL. -/
def copySecret (pf : Platform) (lineData : Option CStr) : Lookup :=
  match lineData with
  | none => .undefined
  | some rest =>
    if pf.strsepFirst then
      match (strsep rest NL).2 with
      | none => .undefined
      | some after =>
        if (strsep rest NL).1.length + 1 ≤ after.length then .found (strsep rest NL).1
        else .undefined
    else
      if (strsep rest NL).1.length + 1 ≤ rest.length then .found (strsep rest NL).1
      else .undefined

/-- Lines 215-221: the loop over the lines of the configuration file. -/
def configLookup (pf : Platform) (fullName : CStr) : List (List Char) → Lookup
  | [] => .unchanged
  | line :: more =>
    if (strsep (cstr line) ':').1 = fullName then copySecret pf (strsep (cstr line) ':').2
    else configLookup pf fullName more

/-- Lines 206-223: the master password is looked up in the file `~/.mpw`. -/
def readConfig (pf : Platform) (inp : Input) (st : State) : Step State :=
  match inp.mpwConfigPath with
  | none => ftl .noConfigPath
  | some _ =>
    match inp.mpwConfig with
    | none => .go [] st
    | some content =>
      match st.fullName with
      | none => .stop [] .undefined
      | some name =>
        match configLookup pf name (splitLines content) with
        | .unchanged => .go [] st
        | .found s => .go [.secret .config s] { st with masterPassword := some s }
        | .undefined => .stop [] .undefined

/-- Lines 230-231: the loop that calls `getpass` while the master password is missing or
empty; the argument is the list of answers `getpass` will give. -/
def askPassword : List (Option CStr) → Step (CStr × List (Option CStr))
  | [] => .stop [] .hang
  | none :: more => (askPassword more).pre [.ask .masterPassword]
  | some s :: more =>
    if s.length = 0 then (askPassword more).pre [.ask .masterPassword, .secret .getpass s]
    else .go [.ask .masterPassword, .secret .getpass s] (s, more)

/-- Lines 224-235: the master password is read from stdin in silent mode, and asked for on
the terminal otherwise, with the summary line. -/
def readMasterPassword (pf : Platform) (st : State) : Step State :=
  if st.silent then
    match getpass_stdin st.stdin with
    | none => ftl (.invalidSiteCounter st.siteCounter)
    | some (s, rest) =>
      if s.length = 0 then .stop [.secret .stdinLine s, .err (.invalidSiteCounter st.siteCounter)] (.exit 2)
      else .go [.secret .stdinLine s] { st with masterPassword := some s, stdin := rest }
  else
    let asked : Step State :=
      match st.masterPassword with
      | none =>
        (askPassword st.tty).bind
          (fun r => .go [] { st with masterPassword := some r.1, tty := r.2 })
      | some s =>
        if s.length = 0 then
          (askPassword st.tty).bind
            (fun r => .go [] { st with masterPassword := some r.1, tty := r.2 })
        else .go [] st
    asked.bind (fun st1 =>
      .go [.summary st1.fullName st1.siteName
        (pf.mpw_identicon st1.fullName st1.masterPassword)] st1)

/-- Lines 237-251: key derivation, synthesis and output; the value is what `main` returns. -/
def output (pf : Platform) (st : State) : Step Nat :=
  match pf.mpw_masterKeyForUser st.fullName st.masterPassword st.algorithmVersion with
  | none =>
    .stop [.masterKeyForUser st.fullName st.masterPassword st.algorithmVersion,
      .freeString st.masterPassword, .err .noMasterKey] (.exit 2)
  | some key =>
    match pf.mpw_passwordForSite key st.siteName st.siteType st.siteCounter st.siteVariant
        st.siteContextString st.algorithmVersion with
    | none =>
      .stop [.masterKeyForUser st.fullName st.masterPassword st.algorithmVersion,
        .freeString st.masterPassword,
        .passwordForSite key st.siteName st.siteType st.siteCounter st.siteVariant
          st.siteContextString st.algorithmVersion,
        .free key, .err .noSitePassword] (.exit 2)
    | some sitePassword =>
      .go [.masterKeyForUser st.fullName st.masterPassword st.algorithmVersion,
        .freeString st.masterPassword,
        .passwordForSite key st.siteName st.siteType st.siteCounter st.siteVariant
          st.siteContextString st.algorithmVersion,
        .free key, .out sitePassword] 0

/-- Lines 111-180: environment, options, and the site argument. -/
def parsed (pf : Platform) (inp : Input) : Step State :=
  ((readEnvironment pf inp).bind (readOptions inp.opts)).bind (readSiteArgument inp)

/-- Lines 111-190: `main` up to the point where both names are known. -/
def names (pf : Platform) (inp : Input) : Step State :=
  ((parsed pf inp).bind resolveFullName).bind resolveSiteName

/-- Lines 111-223: `main` up to the point where the master password is read. -/
def settled (pf : Platform) (inp : Input) : Step State :=
  (((names pf inp).bind convertCounter).bind (convertType pf)).bind (readConfig pf inp)

/-- Lines 111-235: all of `main` before the key derivation. -/
def front (pf : Platform) (inp : Input) : Step State :=
  (settled pf inp).bind (readMasterPassword pf)

/-- The function `main`: the events of the run, and the value returned or the way the run
ends otherwise. -/
def main (pf : Platform) (inp : Input) : Step Nat :=
  (front pf inp).bind (output pf)

/-! ## Vocabulary of the properties -/

/-- The event is a call of one of the two derivation stages. -/
def Event.isDerivation : Event → Bool
  | .masterKeyForUser _ _ _ => true
  | .passwordForSite _ _ _ _ _ _ _ => true
  | _ => false

/-- The event is one of those `main` produces before line 237: text on stderr, a prompt,
the summary, a new secret buffer. -/
def Event.early : Event → Bool
  | .err _ => true
  | .ask _ => true
  | .summary _ _ _ => true
  | .secret _ _ => true
  | _ => false

/-- All events of a piece are early ones. -/
def AllEarly {α : Type} (s : Step α) : Prop :=
  ∀ e ∈ s.trace, e.early = true

/-- The bytes a trace writes to standard output: for each `out` event its string and a
newline. -/
def stdoutOf : List Event → List Char
  | [] => []
  | .out s :: tr => s ++ NL :: stdoutOf tr
  | _ :: tr => stdoutOf tr

/-- In the trace, each occurrence of the event `a` is directly followed by the event `b`. -/
def FollowedBy (tr : List Event) (a b : Event) : Prop :=
  ∀ before after, tr = before ++ a :: after → ∃ rest, after = b :: rest

/-- The argument of the last occurrence of option `c` among the results of `getopt`. -/
def lastArg (c : Char) : List GetoptRet → Option CStr
  | [] => none
  | g :: gs =>
    match lastArg c gs with
    | some a => some a
    | none => if g.opt = c then some g.optarg else none

/-- A parameter as the command line and the environment supply it: the option when it is
given, otherwise the environment variable when it is set. -/
def supplied (c : Char) (env : Option CStr) (opts : List GetoptRet) : Option CStr :=
  match lastArg c opts with
  | some a => some a
  | none => env

/-- The site counter as resolved from `-c`, else `MP_SITECOUNTER`, else 1, converted with
`atol` and truncated to 32 bits. -/
def resolvedCounter (inp : Input) : Nat :=
  match supplied 'c' inp.env_sitecounter inp.opts with
  | some s => uint32 (atol s)
  | none => 1

/-- The variant as resolved from `-v`, else Password. -/
def resolvedVariant (pf : Platform) (inp : Input) : MPSiteVariant :=
  match lastArg 'v' inp.opts with
  | some s => pf.mpw_variantWithName s
  | none => MPSiteVariant.Password

/-- The default site type of a variant. -/
def defaultType : MPSiteVariant → MPSiteType
  | .Password => .GeneratedLong
  | .Login => .GeneratedName
  | .Answer => .GeneratedPhrase

/-- The site type as resolved from `-t`, else `MP_SITETYPE`, else the default of the
variant. -/
def resolvedType (pf : Platform) (inp : Input) : MPSiteType :=
  match supplied 't' inp.env_sitetype inp.opts with
  | some s => pf.mpw_typeWithName s
  | none => defaultType (resolvedVariant pf inp)

/-- The algorithm version as resolved from `-V`, else a non-empty `MP_ALGORITHM`, else
`MPAlgorithmVersionCurrent`; `none` when the text that decides is not a number. -/
def resolvedVersion (pf : Platform) (inp : Input) : Option Nat :=
  match lastArg 'V' inp.opts with
  | some a => sscanf_u a
  | none =>
    match inp.env_algorithm with
    | none => some pf.MPAlgorithmVersionCurrent
    | some e => if e.length = 0 then some pf.MPAlgorithmVersionCurrent else sscanf_u e

/-- The full name as resolved from `-u`, else `MP_FULLNAME`, else the line typed at the
prompt. -/
def resolvedFullName (inp : Input) : Option CStr :=
  match supplied 'u' inp.env_fullname inp.opts with
  | some n => some n
  | none =>
    match getlinep inp.stdin with
    | some r => some r.1
    | none => none

/-- Silent mode as the command line asks for it: some result of `getopt` is `-s`. -/
def silentGiven (opts : List GetoptRet) : Bool :=
  opts.any (fun g => g.opt == 's')

/-- The effect of a completed option loop over `gs`, from state `st` to state `st2`. -/
structure OptionsEffect (gs : List GetoptRet) (st st2 : State) : Prop where
  fullName : st2.fullName = supplied 'u' st.fullName gs
  siteTypeString : st2.siteTypeString = supplied 't' st.siteTypeString gs
  siteCounterString : st2.siteCounterString = supplied 'c' st.siteCounterString gs
  siteVariantString : st2.siteVariantString = supplied 'v' st.siteVariantString gs
  siteContextString : st2.siteContextString = supplied 'C' st.siteContextString gs
  masterPassword : st2.masterPassword = supplied 'P' st.masterPassword gs
  algorithmVersion :
    some st2.algorithmVersion =
      (match lastArg 'V' gs with
       | some a => sscanf_u a
       | none => some st.algorithmVersion)
  silent : st2.silent = (st.silent || silentGiven gs)
  siteName : st2.siteName = st.siteName
  siteType : st2.siteType = st.siteType
  siteVariant : st2.siteVariant = st.siteVariant
  siteCounter : st2.siteCounter = st.siteCounter
  stdin : st2.stdin = st.stdin
  tty : st2.tty = st.tty

/-- What holds of the state when the option loop and lines 179-180 are done. -/
structure Parsed (pf : Platform) (inp : Input) (st : State) : Prop where
  fullName : st.fullName = supplied 'u' inp.env_fullname inp.opts
  siteTypeString : st.siteTypeString = supplied 't' inp.env_sitetype inp.opts
  siteCounterString : st.siteCounterString = supplied 'c' inp.env_sitecounter inp.opts
  siteVariantString : st.siteVariantString = lastArg 'v' inp.opts
  siteContextString : st.siteContextString = lastArg 'C' inp.opts
  masterPassword : st.masterPassword = lastArg 'P' inp.opts
  algorithmVersion : some st.algorithmVersion = resolvedVersion pf inp
  silent : st.silent = silentGiven inp.opts
  siteName : st.siteName = inp.site
  siteType : st.siteType = MPSiteType.GeneratedLong
  siteVariant : st.siteVariant = MPSiteVariant.Password
  siteCounter : st.siteCounter = 1
  stdin : st.stdin = inp.stdin
  tty : st.tty = inp.tty

/-- What holds of the state on line 191, when both names are known. -/
structure Named (pf : Platform) (inp : Input) (st : State) : Prop where
  fullName : st.fullName = resolvedFullName inp
  fullName_some : st.fullName ≠ none
  siteName_some : st.siteName ≠ none
  siteName_arg : ∀ a, inp.site = some a → st.siteName = some a
  siteTypeString : st.siteTypeString = supplied 't' inp.env_sitetype inp.opts
  siteCounterString : st.siteCounterString = supplied 'c' inp.env_sitecounter inp.opts
  siteVariantString : st.siteVariantString = lastArg 'v' inp.opts
  siteContextString : st.siteContextString = lastArg 'C' inp.opts
  algorithmVersion : some st.algorithmVersion = resolvedVersion pf inp
  silent : st.silent = silentGiven inp.opts
  siteType : st.siteType = MPSiteType.GeneratedLong
  siteVariant : st.siteVariant = MPSiteVariant.Password
  siteCounter : st.siteCounter = 1
  stdin_silent : st.silent = true → st.stdin = inp.stdin
  tty : st.tty = inp.tty

/-- What holds of the state on line 224, when the master password is about to be read. -/
structure Settled (pf : Platform) (inp : Input) (st : State) : Prop where
  fullName : st.fullName = resolvedFullName inp
  fullName_some : st.fullName ≠ none
  siteName_some : st.siteName ≠ none
  siteName_arg : ∀ a, inp.site = some a → st.siteName = some a
  siteCounter : st.siteCounter = resolvedCounter inp
  siteCounter_pos : st.siteCounter ≠ 0
  siteVariant : st.siteVariant = resolvedVariant pf inp
  siteType : st.siteType = resolvedType pf inp
  algorithmVersion : some st.algorithmVersion = resolvedVersion pf inp
  siteContextString : st.siteContextString = lastArg 'C' inp.opts
  silent : st.silent = silentGiven inp.opts
  stdin_silent : st.silent = true → st.stdin = inp.stdin
  tty : st.tty = inp.tty

/-- What holds of the state on line 237, when the key derivation is called. -/
structure Resolved (pf : Platform) (inp : Input) (st : State) : Prop where
  fullName : st.fullName = resolvedFullName inp
  fullName_some : st.fullName ≠ none
  siteName_some : st.siteName ≠ none
  siteName_arg : ∀ a, inp.site = some a → st.siteName = some a
  siteCounter : st.siteCounter = resolvedCounter inp
  siteCounter_pos : st.siteCounter ≠ 0
  siteVariant : st.siteVariant = resolvedVariant pf inp
  siteType : st.siteType = resolvedType pf inp
  algorithmVersion : some st.algorithmVersion = resolvedVersion pf inp
  siteContextString : st.siteContextString = lastArg 'C' inp.opts
  secret : ∃ s, st.masterPassword = some s ∧ s ≠ []

/-- An answer of `getpass` that leaves the master password missing or empty. -/
def NoSecret (a : Option CStr) : Prop :=
  a = none ∨ a = some []

/-- The secret `getpass_stdin` delivers from standard input, `none` when it returns NULL. -/
def stdinSecret (stdin : List Char) : Option CStr :=
  match getpass_stdin stdin with
  | some r => some r.1
  | none => none

/-- A text is a decimal numeral for `n`: a non-empty run of digits with that value. -/
def Denotes (s : CStr) (n : Nat) : Prop :=
  s ≠ [] ∧ (∀ c ∈ s, c.isDigit = true) ∧ decValue s = n

/-- A platform for the examples: version 3 is current, the variant names are `l` for Login,
`a` for Answer and anything else for Password, the type names are `x` for Maximum and
anything else for Long, key derivation gives the key `[1]` and synthesis the string `pw`. -/
def examplePlatform : Platform :=
  { MPAlgorithmVersionCurrent := 3
    mpw_variantWithName := fun s =>
      if s = ['l'] then MPSiteVariant.Login
      else if s = ['a'] then MPSiteVariant.Answer
      else MPSiteVariant.Password
    mpw_typeWithName := fun s =>
      if s = ['x'] then MPSiteType.GeneratedMaximum else MPSiteType.GeneratedLong
    mpw_identicon := fun _ _ => []
    mpw_masterKeyForUser := fun _ _ _ => some [1]
    mpw_passwordForSite := fun _ _ _ _ _ _ _ => some ['p', 'w']
    strsepFirst := false }

/-- An invocation with an empty command line and environment, nothing on stdin, no answer
from the terminal, and no configuration file. -/
def emptyInput : Input :=
  { env_fullname := none
    env_sitetype := none
    env_sitecounter := none
    env_algorithm := none
    opts := []
    site := none
    stdin := []
    mpwConfigPath := some ['.', 'm', 'p', 'w']
    mpwConfig := none
    tty := [] }

/-- The result of `getopt` for the option `-c arg`. -/
def given (c : Char) (arg : CStr) : GetoptRet :=
  { opt := c, optarg := arg, optopt := Char.ofNat 0 }

/-- The run `mpw -u bob -s site` with an empty line on standard input. -/
def silentEmptyRun : Input :=
  { emptyInput with
    opts := [given 'u' ['b', 'o', 'b'], given 's' []]
    site := some ['s']
    stdin := [NL] }

/-- The run `mpw -u bob site` where the terminal answers NULL, then an empty line, then
`pw`. -/
def promptRun : Input :=
  { emptyInput with
    opts := [given 'u' ['b', 'o', 'b']]
    site := some ['s']
    tty := [none, some [], some ['p', 'w']] }

/-- The state of `promptRun` on line 224. -/
def promptState : State :=
  { fullName := some ['b', 'o', 'b']
    masterPassword := none
    siteName := some ['s']
    siteType := MPSiteType.GeneratedLong
    siteTypeString := none
    siteVariant := MPSiteVariant.Password
    siteVariantString := none
    siteContextString := none
    siteCounter := 1
    siteCounterString := none
    algorithmVersion := 3
    algorithmVersionString := none
    silent := false
    stdin := []
    tty := [none, some [], some ['p', 'w']] }

/-- The run `mpw -c 0 -h x`: the counter is 0 and help is asked for. -/
def counterZeroHelpRun : Input :=
  { emptyInput with opts := [given 'c' ['0'], given 'h' ['x']] }

/-- The run `mpw -u bob -c 0 site`. -/
def counterZeroRun : Input :=
  { emptyInput with
    opts := [given 'u' ['b', 'o', 'b'], given 'c' ['0']]
    site := some ['s'] }

/-- The run `mpw -h x`. -/
def helpRun : Input :=
  { emptyInput with opts := [given 'h' ['x']] }

/-- The run `mpw -u bob -P pw site`. -/
def plainRun : Input :=
  { emptyInput with
    opts := [given 'u' ['b', 'o', 'b'], given 'P' ['p', 'w']]
    site := some ['s'] }

/-- The state of `plainRun` on line 237. -/
def plainState : State :=
  { fullName := some ['b', 'o', 'b']
    masterPassword := some ['p', 'w']
    siteName := some ['s']
    siteType := MPSiteType.GeneratedLong
    siteTypeString := none
    siteVariant := MPSiteVariant.Password
    siteVariantString := none
    siteContextString := none
    siteCounter := 1
    siteCounterString := none
    algorithmVersion := 3
    algorithmVersionString := none
    silent := false
    stdin := []
    tty := [] }

/-- The run `mpw -u "" -P pw ""`: the full name and the site name are empty strings. -/
def emptyNamesRun : Input :=
  { emptyInput with
    opts := [given 'u' [], given 'P' ['p', 'w']]
    site := some [] }

/-- The run `mpw -s site` without a full name. -/
def silentNoNameRun : Input :=
  { emptyInput with
    opts := [given 's' []]
    site := some ['s'] }

/-- The state of `silentNoNameRun` on line 181. -/
def silentNoNameState : State :=
  { plainState with fullName := none, masterPassword := none, silent := true }

/-- The run `mpw -u bob` at end of file on stdin. -/
def noSiteRun : Input :=
  { emptyInput with opts := [given 'u' ['b', 'o', 'b']] }

/-- The state of `noSiteRun` on line 181. -/
def noSiteState : State :=
  { plainState with masterPassword := none, siteName := none }

/-- The run `mpw -u bob -P pw -c 0 site`. -/
def leakRun : Input :=
  { emptyInput with
    opts := [given 'u' ['b', 'o', 'b'], given 'P' ['p', 'w'], given 'c' ['0']]
    site := some ['s'] }

/-- The run `mpw -u bob -P pw -s site` with the line `x` on standard input. -/
def supersededRun : Input :=
  { emptyInput with
    opts := [given 'u' ['b', 'o', 'b'], given 'P' ['p', 'w'], given 's' []]
    site := some ['s']
    stdin := ['x', NL] }

/-- The run `mpw -u bob -P pw -V 2 site` with `MP_ALGORITHM=x` in the environment. -/
def badEnvironmentRun : Input :=
  { emptyInput with
    env_algorithm := some ['x']
    opts := [given 'u' ['b', 'o', 'b'], given 'P' ['p', 'w'], given 'V' ['2']]
    site := some ['s'] }

/-- The run `mpw -u bob -P pw -V 2 -c 7 site` with `MP_ALGORITHM=1` and `MP_SITECOUNTER=5`
in the environment. -/
def overrideRun : Input :=
  { emptyInput with
    env_algorithm := some ['1']
    env_sitecounter := some ['5']
    opts := [given 'u' ['b', 'o', 'b'], given 'P' ['p', 'w'], given 'V' ['2'],
      given 'c' ['7']]
    site := some ['s'] }

/-- The run `mpw -u bob -P pw -c -1 site`. -/
def negativeCounterRun : Input :=
  { emptyInput with
    opts := [given 'u' ['b', 'o', 'b'], given 'P' ['p', 'w'], given 'c' ['-', '1']]
    site := some ['s'] }

/-- The run `mpw -u bob -P pw -c 1x site`. -/
def trailingTextRun : Input :=
  { emptyInput with
    opts := [given 'u' ['b', 'o', 'b'], given 'P' ['p', 'w'], given 'c' ['1', 'x']]
    site := some ['s'] }

/-- The run `mpw -u bob -P pw -c 4294967297 site`. -/
def largeCounterRun : Input :=
  { emptyInput with
    opts := [given 'u' ['b', 'o', 'b'], given 'P' ['p', 'w'],
      given 'c' ['4', '2', '9', '4', '9', '6', '7', '2', '9', '7']]
    site := some ['s'] }

/-- The run `mpw -u bob -P pw -c 42 site`. -/
def counter42Run : Input :=
  { emptyInput with
    opts := [given 'u' ['b', 'o', 'b'], given 'P' ['p', 'w'], given 'c' ['4', '2']]
    site := some ['s'] }

/-- The run `mpw -u bob -s site` with the six bytes `secret` on standard input, and no
newline after them. -/
def unterminatedRun : Input :=
  { emptyInput with
    opts := [given 'u' ['b', 'o', 'b'], given 's' []]
    site := some ['s']
    stdin := ['s', 'e', 'c', 'r', 'e', 't'] }

/-- The run `mpw -u bob -P pw site` with a configuration file that holds the three bytes
`bob`: one line without a colon and without a newline. -/
def noColonRun : Input :=
  { emptyInput with
    opts := [given 'u' ['b', 'o', 'b'], given 'P' ['p', 'w']]
    site := some ['s']
    mpwConfig := some ['b', 'o', 'b'] }

/-- The run `mpw -u bob -P pw site` with a configuration file that holds the bytes
`bob:secret`: one line without a newline at its end. -/
def noNewlineRun : Input :=
  { emptyInput with
    opts := [given 'u' ['b', 'o', 'b'], given 'P' ['p', 'w']]
    site := some ['s']
    mpwConfig := some ['b', 'o', 'b', ':', 's', 'e', 'c', 'r', 'e', 't'] }

/-- The run `mpw -u bob -P pw -v l site`. -/
def loginRun : Input :=
  { emptyInput with
    opts := [given 'u' ['b', 'o', 'b'], given 'P' ['p', 'w'], given 'v' ['l']]
    site := some ['s'] }

/-- The line of standard input is missing or empty: the stream is at end of file, or its
first byte is a newline. -/
def LineMissingOrEmpty (stdin : List Char) : Prop :=
  stdin = [] ∨ ∃ rest, stdin = NL :: rest

/-- The run `mpw -s -h x` with standard input at end of file. -/
def silentHelpRun : Input :=
  { emptyInput with opts := [given 's' [], given 'h' ['x']] }

/-! ## Sequencing lemmas -/

theorem Step.pre_eq_go {α : Type} {tr0 tr : List Event} {s : Step α} {b : α}
    (h : s.pre tr0 = .go tr b) : ∃ tr2, s = .go tr2 b ∧ tr = tr0 ++ tr2 := by
  cases s with
  | go tr2 a =>
    simp only [Step.pre, Step.go.injEq] at h
    exact ⟨tr2, by rw [h.2], h.1.symm⟩
  | stop tr2 x => simp [Step.pre] at h

theorem Step.pre_eq_stop {α : Type} {tr0 tr : List Event} {s : Step α} {x : Halt}
    (h : s.pre tr0 = .stop tr x) : ∃ tr2, s = .stop tr2 x ∧ tr = tr0 ++ tr2 := by
  cases s with
  | go tr2 a => simp [Step.pre] at h
  | stop tr2 y =>
    simp only [Step.pre, Step.stop.injEq] at h
    exact ⟨tr2, by rw [h.2], h.1.symm⟩

theorem Step.trace_pre {α : Type} (tr0 : List Event) (s : Step α) :
    (s.pre tr0).trace = tr0 ++ s.trace := by
  cases s <;> rfl

theorem Step.bind_eq_go {α β : Type} {s : Step α} {f : α → Step β} {tr : List Event} {b : β}
    (h : s.bind f = .go tr b) :
    ∃ tr1 a tr2, s = .go tr1 a ∧ f a = .go tr2 b ∧ tr = tr1 ++ tr2 := by
  cases s with
  | go tr1 a =>
    obtain ⟨tr2, h2, h3⟩ := Step.pre_eq_go (s := f a) h
    exact ⟨tr1, a, tr2, rfl, h2, h3⟩
  | stop tr1 x => simp [Step.bind] at h

theorem Step.bind_eq_stop {α β : Type} {s : Step α} {f : α → Step β} {tr : List Event}
    {x : Halt} (h : s.bind f = .stop tr x) :
    s = .stop tr x ∨ ∃ tr1 a tr2, s = .go tr1 a ∧ f a = .stop tr2 x ∧ tr = tr1 ++ tr2 := by
  cases s with
  | go tr1 a =>
    obtain ⟨tr2, h2, h3⟩ := Step.pre_eq_stop (s := f a) h
    exact Or.inr ⟨tr1, a, tr2, rfl, h2, h3⟩
  | stop tr1 y =>
    simp only [Step.bind, Step.stop.injEq] at h
    exact Or.inl (by rw [h.1, h.2])

theorem Step.bind_go {α β : Type} (tr : List Event) (a : α) (f : α → Step β) :
    (Step.go tr a).bind f = (f a).pre tr := rfl

theorem Step.bind_stop {α β : Type} (tr : List Event) (x : Halt) (f : α → Step β) :
    (Step.stop tr x : Step α).bind f = .stop tr x := rfl

theorem AllEarly.pre {α : Type} {tr0 : List Event} {s : Step α}
    (h0 : ∀ e ∈ tr0, e.early = true) (h : AllEarly s) : AllEarly (s.pre tr0) := by
  intro e he
  rw [Step.trace_pre, List.mem_append] at he
  rcases he with he | he
  · exact h0 e he
  · exact h e he

theorem AllEarly.bind {α β : Type} {s : Step α} {f : α → Step β}
    (hs : AllEarly s) (hf : ∀ a, AllEarly (f a)) : AllEarly (s.bind f) := by
  cases s with
  | go tr a => exact AllEarly.pre hs (hf a)
  | stop tr x => exact hs

/-! ## Before line 237 there are only early events -/

theorem allEarly_readEnvironment (pf : Platform) (inp : Input) :
    AllEarly (readEnvironment pf inp) := by
  unfold readEnvironment
  repeat' split
  all_goals simp [AllEarly, Step.trace, ftl, Event.early]


theorem optionCase_cases (st : State) (g : GetoptRet) :
    (g.opt = 'u' ∧ optionCase st g = .go [] { st with fullName := some g.optarg }) ∨
    (g.opt = 'P' ∧ optionCase st g =
      .go [.secret .optionP g.optarg] { st with masterPassword := some g.optarg }) ∨
    (g.opt = 't' ∧ optionCase st g = .go [] { st with siteTypeString := some g.optarg }) ∨
    (g.opt = 'c' ∧ optionCase st g = .go [] { st with siteCounterString := some g.optarg }) ∨
    (g.opt = 'v' ∧ optionCase st g = .go [] { st with siteVariantString := some g.optarg }) ∨
    (g.opt = 'V' ∧ ∃ n, sscanf_u g.optarg = some n ∧
      optionCase st g = .go [] { st with algorithmVersion := n }) ∨
    (g.opt = 'C' ∧ optionCase st g = .go [] { st with siteContextString := some g.optarg }) ∨
    (g.opt = 's' ∧ optionCase st g = .go [] { st with silent := true }) ∨
    (g.opt = 'h' ∧ optionCase st g = .stop [.err .usage] (.exit 0)) ∨
    (∃ m, optionCase st g = .stop [.err m] (.exit 2)) := by
  unfold optionCase
  by_cases hu : g.opt = 'u'
  · rw [if_pos hu]; exact Or.inl ⟨hu, rfl⟩
  rw [if_neg hu]
  by_cases hP : g.opt = 'P'
  · rw [if_pos hP]; exact Or.inr (Or.inl ⟨hP, rfl⟩)
  rw [if_neg hP]
  by_cases ht : g.opt = 't'
  · rw [if_pos ht]; exact Or.inr (Or.inr (Or.inl ⟨ht, rfl⟩))
  rw [if_neg ht]
  by_cases hc : g.opt = 'c'
  · rw [if_pos hc]; exact Or.inr (Or.inr (Or.inr (Or.inl ⟨hc, rfl⟩)))
  rw [if_neg hc]
  by_cases hv : g.opt = 'v'
  · rw [if_pos hv]; exact Or.inr (Or.inr (Or.inr (Or.inr (Or.inl ⟨hv, rfl⟩))))
  rw [if_neg hv]
  by_cases hV : g.opt = 'V'
  · rw [if_pos hV]
    cases hs : sscanf_u g.optarg with
    | none =>
      exact Or.inr (Or.inr (Or.inr (Or.inr (Or.inr (Or.inr (Or.inr (Or.inr (Or.inr
        ⟨_, rfl⟩))))))))
    | some n =>
      exact Or.inr (Or.inr (Or.inr (Or.inr (Or.inr (Or.inl ⟨hV, n, rfl, rfl⟩)))))
  rw [if_neg hV]
  by_cases hC : g.opt = 'C'
  · rw [if_pos hC]
    exact Or.inr (Or.inr (Or.inr (Or.inr (Or.inr (Or.inr (Or.inl ⟨hC, rfl⟩))))))
  rw [if_neg hC]
  by_cases hs : g.opt = 's'
  · rw [if_pos hs]
    exact Or.inr (Or.inr (Or.inr (Or.inr (Or.inr (Or.inr (Or.inr (Or.inl ⟨hs, rfl⟩)))))))
  rw [if_neg hs]
  by_cases hh : g.opt = 'h'
  · rw [if_pos hh]
    exact Or.inr (Or.inr (Or.inr (Or.inr (Or.inr (Or.inr (Or.inr (Or.inr (Or.inl
      ⟨hh, rfl⟩))))))))
  rw [if_neg hh]
  refine Or.inr (Or.inr (Or.inr (Or.inr (Or.inr (Or.inr (Or.inr (Or.inr (Or.inr ?_))))))))
  by_cases hq : g.opt = '?'
  · rw [if_pos hq]
    by_cases h1 : g.optopt = 'u'
    · rw [if_pos h1]; exact ⟨_, rfl⟩
    rw [if_neg h1]
    by_cases h2 : g.optopt = 't'
    · rw [if_pos h2]; exact ⟨_, rfl⟩
    rw [if_neg h2]
    by_cases h3 : g.optopt = 'c'
    · rw [if_pos h3]; exact ⟨_, rfl⟩
    rw [if_neg h3]
    exact ⟨_, rfl⟩
  · rw [if_neg hq]
    exact ⟨_, rfl⟩

theorem allEarly_optionCase (st : State) (g : GetoptRet) : AllEarly (optionCase st g) := by
  rcases optionCase_cases st g with h | h | h | h | h | h | h | h | h | h
  · rw [h.2]; simp [AllEarly, Step.trace]
  · rw [h.2]; simp [AllEarly, Step.trace, Event.early]
  · rw [h.2]; simp [AllEarly, Step.trace]
  · rw [h.2]; simp [AllEarly, Step.trace]
  · rw [h.2]; simp [AllEarly, Step.trace]
  · obtain ⟨_, n, _, h2⟩ := h
    rw [h2]; simp [AllEarly, Step.trace]
  · rw [h.2]; simp [AllEarly, Step.trace]
  · rw [h.2]; simp [AllEarly, Step.trace]
  · rw [h.2]; simp [AllEarly, Step.trace, Event.early]
  · obtain ⟨m, h2⟩ := h
    rw [h2]; simp [AllEarly, Step.trace, Event.early]

theorem allEarly_readOptions (gs : List GetoptRet) (st : State) :
    AllEarly (readOptions gs st) := by
  induction gs generalizing st with
  | nil => simp [AllEarly, readOptions, Step.trace]
  | cons g gs ih => exact AllEarly.bind (allEarly_optionCase st g) ih

theorem allEarly_readSiteArgument (inp : Input) (st : State) :
    AllEarly (readSiteArgument inp st) := by
  unfold readSiteArgument
  split <;> simp [AllEarly, Step.trace]

theorem allEarly_resolveFullName (st : State) : AllEarly (resolveFullName st) := by
  unfold resolveFullName
  repeat' split
  all_goals simp [AllEarly, Step.trace, ftl, Event.early]

theorem allEarly_resolveSiteName (st : State) : AllEarly (resolveSiteName st) := by
  unfold resolveSiteName
  repeat' split
  all_goals simp [AllEarly, Step.trace, ftl, Event.early]

theorem allEarly_convertCounter (st : State) : AllEarly (convertCounter st) := by
  unfold convertCounter
  dsimp only
  split <;> simp [AllEarly, Step.trace, ftl, Event.early]

theorem allEarly_convertType (pf : Platform) (st : State) : AllEarly (convertType pf st) := by
  simp [AllEarly, convertType, Step.trace]

theorem allEarly_readConfig (pf : Platform) (inp : Input) (st : State) :
    AllEarly (readConfig pf inp st) := by
  unfold readConfig
  repeat' split
  all_goals simp [AllEarly, Step.trace, ftl, Event.early]

theorem allEarly_askPassword (tty : List (Option CStr)) : AllEarly (askPassword tty) := by
  induction tty with
  | nil => simp [AllEarly, askPassword, Step.trace]
  | cons a more ih =>
    cases a with
    | none =>
      refine AllEarly.pre ?_ ih
      simp [Event.early]
    | some s =>
      unfold askPassword
      split
      · refine AllEarly.pre ?_ ih
        simp [Event.early]
      · simp [AllEarly, Step.trace, Event.early]

theorem allEarly_readMasterPassword (pf : Platform) (st : State) :
    AllEarly (readMasterPassword pf st) := by
  unfold readMasterPassword
  split
  · repeat' split
    all_goals simp [AllEarly, Step.trace, ftl, Event.early]
  · refine AllEarly.bind ?_ ?_
    · have hgo : ∀ r : CStr × List (Option CStr),
          AllEarly (Step.go [] { st with masterPassword := some r.1, tty := r.2 }) := by
        intro r
        simp [AllEarly, Step.trace]
      split
      · exact AllEarly.bind (allEarly_askPassword _) hgo
      · split
        · exact AllEarly.bind (allEarly_askPassword _) hgo
        · simp [AllEarly, Step.trace]
    · intro st1
      simp [AllEarly, Step.trace, Event.early]

theorem allEarly_front (pf : Platform) (inp : Input) : AllEarly (front pf inp) := by
  unfold front settled names parsed
  refine AllEarly.bind (AllEarly.bind (AllEarly.bind (AllEarly.bind (AllEarly.bind
    (AllEarly.bind (AllEarly.bind (AllEarly.bind (allEarly_readEnvironment pf inp) ?_) ?_) ?_)
    ?_) ?_) ?_) ?_) ?_
  · exact allEarly_readOptions _
  · exact allEarly_readSiteArgument inp
  · exact allEarly_resolveFullName
  · exact allEarly_resolveSiteName
  · exact allEarly_convertCounter
  · exact allEarly_convertType pf
  · exact allEarly_readConfig pf inp
  · exact allEarly_readMasterPassword pf

/-! ## The option loop -/

theorem supplied_nil (c : Char) (env : Option CStr) : supplied c env [] = env := rfl

theorem supplied_cons (c : Char) (env : Option CStr) (g : GetoptRet) (gs : List GetoptRet) :
    supplied c env (g :: gs) = supplied c (if g.opt = c then some g.optarg else env) gs := by
  unfold supplied
  simp only [lastArg]
  cases lastArg c gs with
  | none => by_cases h : g.opt = c <;> simp [h]
  | some a => rfl

theorem lastArg_cons_ne (c : Char) (g : GetoptRet) (gs : List GetoptRet) (h : g.opt ≠ c) :
    lastArg c (g :: gs) = lastArg c gs := by
  simp only [lastArg, if_neg h]
  cases lastArg c gs <;> rfl

theorem silentGiven_cons (g : GetoptRet) (gs : List GetoptRet) :
    silentGiven (g :: gs) = (g.opt == 's' || silentGiven gs) := rfl

theorem optionsEffect_nil (st : State) : OptionsEffect [] st st :=
  { fullName := rfl, siteTypeString := rfl, siteCounterString := rfl, siteVariantString := rfl,
    siteContextString := rfl, masterPassword := rfl, algorithmVersion := rfl,
    silent := by simp [silentGiven], siteName := rfl, siteType := rfl, siteVariant := rfl,
    siteCounter := rfl, stdin := rfl, tty := rfl }

theorem sup_ne {c d : Char} (h : d ≠ c) (g : GetoptRet) (hg : g.opt = d) (env : Option CStr)
    (gs : List GetoptRet) : supplied c env (g :: gs) = supplied c env gs := by
  rw [supplied_cons, if_neg (by rw [hg]; exact h)]

theorem sup_eq {c : Char} (g : GetoptRet) (hg : g.opt = c) (env : Option CStr)
    (gs : List GetoptRet) : supplied c env (g :: gs) = supplied c (some g.optarg) gs := by
  rw [supplied_cons, if_pos hg]

theorem ver_ne {d : Char} (h : d ≠ 'V') (g : GetoptRet) (hg : g.opt = d)
    (gs : List GetoptRet) : lastArg 'V' (g :: gs) = lastArg 'V' gs :=
  lastArg_cons_ne _ _ _ (by rw [hg]; exact h)

theorem sil_ne {d : Char} (h : d ≠ 's') (g : GetoptRet) (hg : g.opt = d)
    (gs : List GetoptRet) : silentGiven (g :: gs) = silentGiven gs := by
  rw [silentGiven_cons]
  have : (g.opt == 's') = false := by
    rw [hg]
    simpa using h
  rw [this, Bool.false_or]

theorem ver_eq (g : GetoptRet) (hg : g.opt = 'V') (gs : List GetoptRet) :
    lastArg 'V' (g :: gs) =
      (match lastArg 'V' gs with
       | some a => some a
       | none => some g.optarg) := by
  simp only [lastArg, if_pos hg]

theorem optionsEffect_cons {g : GetoptRet} {gs : List GetoptRet} {st st1 st2 : State}
    {tr : List Event} (h1 : optionCase st g = .go tr st1) (ih : OptionsEffect gs st1 st2) :
    OptionsEffect (g :: gs) st st2 := by
  rcases optionCase_cases st g with h | h | h | h | h | h | h | h | h | h
  · obtain ⟨hg, h⟩ := h
    rw [h] at h1
    injection h1 with _ h1
    subst h1
    exact
      { fullName := by rw [sup_eq g hg]; exact ih.fullName
        siteTypeString := by rw [sup_ne (by decide) g hg]; exact ih.siteTypeString
        siteCounterString := by rw [sup_ne (by decide) g hg]; exact ih.siteCounterString
        siteVariantString := by rw [sup_ne (by decide) g hg]; exact ih.siteVariantString
        siteContextString := by rw [sup_ne (by decide) g hg]; exact ih.siteContextString
        masterPassword := by rw [sup_ne (by decide) g hg]; exact ih.masterPassword
        algorithmVersion := by rw [ver_ne (by decide) g hg]; exact ih.algorithmVersion
        silent := by rw [sil_ne (by decide) g hg]; exact ih.silent
        siteName := ih.siteName, siteType := ih.siteType, siteVariant := ih.siteVariant
        siteCounter := ih.siteCounter, stdin := ih.stdin, tty := ih.tty }
  · obtain ⟨hg, h⟩ := h
    rw [h] at h1
    injection h1 with _ h1
    subst h1
    exact
      { fullName := by rw [sup_ne (by decide) g hg]; exact ih.fullName
        siteTypeString := by rw [sup_ne (by decide) g hg]; exact ih.siteTypeString
        siteCounterString := by rw [sup_ne (by decide) g hg]; exact ih.siteCounterString
        siteVariantString := by rw [sup_ne (by decide) g hg]; exact ih.siteVariantString
        siteContextString := by rw [sup_ne (by decide) g hg]; exact ih.siteContextString
        masterPassword := by rw [sup_eq g hg]; exact ih.masterPassword
        algorithmVersion := by rw [ver_ne (by decide) g hg]; exact ih.algorithmVersion
        silent := by rw [sil_ne (by decide) g hg]; exact ih.silent
        siteName := ih.siteName, siteType := ih.siteType, siteVariant := ih.siteVariant
        siteCounter := ih.siteCounter, stdin := ih.stdin, tty := ih.tty }
  · obtain ⟨hg, h⟩ := h
    rw [h] at h1
    injection h1 with _ h1
    subst h1
    exact
      { fullName := by rw [sup_ne (by decide) g hg]; exact ih.fullName
        siteTypeString := by rw [sup_eq g hg]; exact ih.siteTypeString
        siteCounterString := by rw [sup_ne (by decide) g hg]; exact ih.siteCounterString
        siteVariantString := by rw [sup_ne (by decide) g hg]; exact ih.siteVariantString
        siteContextString := by rw [sup_ne (by decide) g hg]; exact ih.siteContextString
        masterPassword := by rw [sup_ne (by decide) g hg]; exact ih.masterPassword
        algorithmVersion := by rw [ver_ne (by decide) g hg]; exact ih.algorithmVersion
        silent := by rw [sil_ne (by decide) g hg]; exact ih.silent
        siteName := ih.siteName, siteType := ih.siteType, siteVariant := ih.siteVariant
        siteCounter := ih.siteCounter, stdin := ih.stdin, tty := ih.tty }
  · obtain ⟨hg, h⟩ := h
    rw [h] at h1
    injection h1 with _ h1
    subst h1
    exact
      { fullName := by rw [sup_ne (by decide) g hg]; exact ih.fullName
        siteTypeString := by rw [sup_ne (by decide) g hg]; exact ih.siteTypeString
        siteCounterString := by rw [sup_eq g hg]; exact ih.siteCounterString
        siteVariantString := by rw [sup_ne (by decide) g hg]; exact ih.siteVariantString
        siteContextString := by rw [sup_ne (by decide) g hg]; exact ih.siteContextString
        masterPassword := by rw [sup_ne (by decide) g hg]; exact ih.masterPassword
        algorithmVersion := by rw [ver_ne (by decide) g hg]; exact ih.algorithmVersion
        silent := by rw [sil_ne (by decide) g hg]; exact ih.silent
        siteName := ih.siteName, siteType := ih.siteType, siteVariant := ih.siteVariant
        siteCounter := ih.siteCounter, stdin := ih.stdin, tty := ih.tty }
  · obtain ⟨hg, h⟩ := h
    rw [h] at h1
    injection h1 with _ h1
    subst h1
    exact
      { fullName := by rw [sup_ne (by decide) g hg]; exact ih.fullName
        siteTypeString := by rw [sup_ne (by decide) g hg]; exact ih.siteTypeString
        siteCounterString := by rw [sup_ne (by decide) g hg]; exact ih.siteCounterString
        siteVariantString := by rw [sup_eq g hg]; exact ih.siteVariantString
        siteContextString := by rw [sup_ne (by decide) g hg]; exact ih.siteContextString
        masterPassword := by rw [sup_ne (by decide) g hg]; exact ih.masterPassword
        algorithmVersion := by rw [ver_ne (by decide) g hg]; exact ih.algorithmVersion
        silent := by rw [sil_ne (by decide) g hg]; exact ih.silent
        siteName := ih.siteName, siteType := ih.siteType, siteVariant := ih.siteVariant
        siteCounter := ih.siteCounter, stdin := ih.stdin, tty := ih.tty }
  · obtain ⟨hg, n, hn, h⟩ := h
    rw [h] at h1
    injection h1 with _ h1
    subst h1
    exact
      { fullName := by rw [sup_ne (by decide) g hg]; exact ih.fullName
        siteTypeString := by rw [sup_ne (by decide) g hg]; exact ih.siteTypeString
        siteCounterString := by rw [sup_ne (by decide) g hg]; exact ih.siteCounterString
        siteVariantString := by rw [sup_ne (by decide) g hg]; exact ih.siteVariantString
        siteContextString := by rw [sup_ne (by decide) g hg]; exact ih.siteContextString
        masterPassword := by rw [sup_ne (by decide) g hg]; exact ih.masterPassword
        algorithmVersion := by
          rw [ver_eq g hg]
          have := ih.algorithmVersion
          cases hl : lastArg 'V' gs with
          | none =>
            rw [hl] at this
            show some st2.algorithmVersion = sscanf_u g.optarg
            rw [hn]
            exact this
          | some a => rw [hl] at this; exact this
        silent := by rw [sil_ne (by decide) g hg]; exact ih.silent
        siteName := ih.siteName, siteType := ih.siteType, siteVariant := ih.siteVariant
        siteCounter := ih.siteCounter, stdin := ih.stdin, tty := ih.tty }
  · obtain ⟨hg, h⟩ := h
    rw [h] at h1
    injection h1 with _ h1
    subst h1
    exact
      { fullName := by rw [sup_ne (by decide) g hg]; exact ih.fullName
        siteTypeString := by rw [sup_ne (by decide) g hg]; exact ih.siteTypeString
        siteCounterString := by rw [sup_ne (by decide) g hg]; exact ih.siteCounterString
        siteVariantString := by rw [sup_ne (by decide) g hg]; exact ih.siteVariantString
        siteContextString := by rw [sup_eq g hg]; exact ih.siteContextString
        masterPassword := by rw [sup_ne (by decide) g hg]; exact ih.masterPassword
        algorithmVersion := by rw [ver_ne (by decide) g hg]; exact ih.algorithmVersion
        silent := by rw [sil_ne (by decide) g hg]; exact ih.silent
        siteName := ih.siteName, siteType := ih.siteType, siteVariant := ih.siteVariant
        siteCounter := ih.siteCounter, stdin := ih.stdin, tty := ih.tty }
  · obtain ⟨hg, h⟩ := h
    rw [h] at h1
    injection h1 with _ h1
    subst h1
    exact
      { fullName := by rw [sup_ne (by decide) g hg]; exact ih.fullName
        siteTypeString := by rw [sup_ne (by decide) g hg]; exact ih.siteTypeString
        siteCounterString := by rw [sup_ne (by decide) g hg]; exact ih.siteCounterString
        siteVariantString := by rw [sup_ne (by decide) g hg]; exact ih.siteVariantString
        siteContextString := by rw [sup_ne (by decide) g hg]; exact ih.siteContextString
        masterPassword := by rw [sup_ne (by decide) g hg]; exact ih.masterPassword
        algorithmVersion := by rw [ver_ne (by decide) g hg]; exact ih.algorithmVersion
        silent := by
          rw [silentGiven_cons, hg, ih.silent]
          simp
        siteName := ih.siteName, siteType := ih.siteType, siteVariant := ih.siteVariant
        siteCounter := ih.siteCounter, stdin := ih.stdin, tty := ih.tty }
  · rw [h.2] at h1
    exact absurd h1 (by simp)
  · obtain ⟨m, h⟩ := h
    rw [h] at h1
    exact absurd h1 (by simp)

theorem readOptions_go {gs : List GetoptRet} {st st2 : State} {tr : List Event}
    (h : readOptions gs st = .go tr st2) : OptionsEffect gs st st2 := by
  induction gs generalizing st tr with
  | nil =>
    simp only [readOptions, Step.go.injEq] at h
    rw [← h.2]
    exact optionsEffect_nil st
  | cons g gs ih =>
    obtain ⟨tr1, st1, tr2, h1, h2, _⟩ := Step.bind_eq_go (s := optionCase st g) h
    exact optionsEffect_cons h1 (ih h2)

theorem optionCase_stop {st : State} {g : GetoptRet} {tr : List Event} {x : Halt}
    (h : optionCase st g = .stop tr x) :
    x = .exit 2 ∨ (x = .exit 0 ∧ tr = [.err .usage]) := by
  rcases optionCase_cases st g with c | c | c | c | c | c | c | c | c | c
  · rw [c.2] at h; exact absurd h (by simp)
  · rw [c.2] at h; exact absurd h (by simp)
  · rw [c.2] at h; exact absurd h (by simp)
  · rw [c.2] at h; exact absurd h (by simp)
  · rw [c.2] at h; exact absurd h (by simp)
  · obtain ⟨_, n, _, c⟩ := c
    rw [c] at h
    exact absurd h (by simp)
  · rw [c.2] at h; exact absurd h (by simp)
  · rw [c.2] at h; exact absurd h (by simp)
  · rw [c.2] at h
    injection h with h1 h2
    exact Or.inr ⟨h2.symm, h1.symm⟩
  · obtain ⟨m, c⟩ := c
    rw [c] at h
    injection h with h1 h2
    exact Or.inl h2.symm

/-- A halt that is an `exit` with status 2, or with status 0 after the usage text. -/
theorem readOptions_stop {gs : List GetoptRet} {st : State} {tr : List Event} {x : Halt}
    (h : readOptions gs st = .stop tr x) :
    x = .exit 2 ∨ (x = .exit 0 ∧ Event.err Msg.usage ∈ tr) := by
  induction gs generalizing st tr with
  | nil => simp [readOptions] at h
  | cons g gs ih =>
    rcases Step.bind_eq_stop (s := optionCase st g) h with h1 | ⟨tr1, st1, tr2, h1, h2, h3⟩
    · rcases optionCase_stop h1 with c | c
      · exact Or.inl c
      · exact Or.inr ⟨c.1, by rw [c.2]; simp⟩
    · rcases ih h2 with c | c
      · exact Or.inl c
      · exact Or.inr ⟨c.1, by rw [h3]; exact List.mem_append_right _ c.2⟩

theorem readEnvironment_go {pf : Platform} {inp : Input} {st : State} {tr : List Event}
    (h : readEnvironment pf inp = .go tr st) :
    tr = [] ∧ st.fullName = inp.env_fullname ∧ st.masterPassword = none ∧ st.siteName = none ∧
    st.siteType = MPSiteType.GeneratedLong ∧ st.siteTypeString = inp.env_sitetype ∧
    st.siteVariant = MPSiteVariant.Password ∧ st.siteVariantString = none ∧
    st.siteContextString = none ∧ st.siteCounter = 1 ∧
    st.siteCounterString = inp.env_sitecounter ∧ st.silent = false ∧ st.stdin = inp.stdin ∧
    st.tty = inp.tty ∧
    some st.algorithmVersion =
      (match inp.env_algorithm with
       | none => some pf.MPAlgorithmVersionCurrent
       | some e => if e.length = 0 then some pf.MPAlgorithmVersionCurrent else sscanf_u e) := by
  unfold readEnvironment at h
  cases he : inp.env_algorithm with
  | none =>
    simp only [he, Step.go.injEq] at h
    obtain ⟨h1, h2⟩ := h
    subst h1 h2
    simp
  | some e =>
    simp only [he] at h
    by_cases hl : e.length = 0
    · rw [if_pos hl] at h
      simp only [Step.go.injEq] at h
      obtain ⟨h1, h2⟩ := h
      subst h1 h2
      simp [hl]
    · rw [if_neg hl] at h
      cases hs : sscanf_u e with
      | none => simp [hs, ftl] at h
      | some n =>
        simp only [hs, Step.go.injEq] at h
        obtain ⟨h1, h2⟩ := h
        subst h1 h2
        simp [hl, hs]

theorem readEnvironment_stop {pf : Platform} {inp : Input} {tr : List Event} {x : Halt}
    (h : readEnvironment pf inp = .stop tr x) : x = .exit 2 := by
  unfold readEnvironment at h
  cases he : inp.env_algorithm with
  | none => simp [he] at h
  | some e =>
    simp only [he] at h
    by_cases hl : e.length = 0
    · rw [if_pos hl] at h
      simp at h
    · rw [if_neg hl] at h
      cases hs : sscanf_u e with
      | none =>
        simp only [hs, ftl, Step.stop.injEq] at h
        exact h.2.symm
      | some n => simp [hs] at h

/-! ## The pieces between the option loop and the key derivation -/

theorem readSiteArgument_eq (inp : Input) (st : State) :
    readSiteArgument inp st =
      .go [] { st with siteName := (match inp.site with
                                    | some a => some a
                                    | none => st.siteName) } := by
  unfold readSiteArgument
  cases inp.site <;> rfl

theorem getline_nil : getline [] = none := rfl

theorem getlinep_nil : getlinep [] = none := rfl

theorem resolveFullName_go {st st1 : State} {tr : List Event}
    (h : resolveFullName st = .go tr st1) :
    (∃ n, st.fullName = some n ∧ st1 = st ∧ tr = []) ∨
    (st.fullName = none ∧ st.silent = false ∧ ∃ n rest, getlinep st.stdin = some (n, rest) ∧
      st1 = { st with fullName := some n, stdin := rest } ∧ tr = [.ask .fullName]) := by
  unfold resolveFullName at h
  cases hf : st.fullName with
  | some n =>
    simp only [hf, Step.go.injEq] at h
    exact Or.inl ⟨n, rfl, h.2.symm, h.1.symm⟩
  | none =>
    simp only [hf] at h
    cases hs : st.silent with
    | true => simp [hs, ftl] at h
    | false =>
      simp only [hs] at h
      cases hg : getlinep st.stdin with
      | none => simp [hg] at h
      | some r =>
        obtain ⟨n, rest⟩ := r
        simp only [hg, Bool.false_eq_true, if_false, Step.go.injEq] at h
        exact Or.inr ⟨rfl, rfl, n, rest, rfl, h.2.symm, h.1.symm⟩

theorem resolveFullName_stop {st : State} {tr : List Event} {x : Halt}
    (h : resolveFullName st = .stop tr x) : x = .exit 2 := by
  unfold resolveFullName at h
  cases hf : st.fullName with
  | some n => simp [hf] at h
  | none =>
    simp only [hf] at h
    cases hs : st.silent with
    | true =>
      simp only [hs, ftl, if_true, Step.stop.injEq] at h
      exact h.2.symm
    | false =>
      simp only [hs] at h
      cases hg : getlinep st.stdin with
      | none =>
        simp only [hg, Bool.false_eq_true, if_false, Step.stop.injEq] at h
        exact h.2.symm
      | some r => simp [hg] at h

theorem resolveFullName_missing {st : State} (hf : st.fullName = none)
    (h : st.silent = true ∨ st.stdin = []) :
    ∃ tr, resolveFullName st = .stop tr (.exit 2) ∧ Event.err Msg.missingFullName ∈ tr ∧
      ∀ e ∈ tr, e.isDerivation = false := by
  unfold resolveFullName
  simp only [hf]
  cases hs : st.silent with
  | true =>
    refine ⟨[.err .missingFullName], by simp [ftl], by simp, ?_⟩
    simp [Event.isDerivation]
  | false =>
    rcases h with h | h
    · rw [hs] at h
      exact absurd h (by simp)
    · refine ⟨[.ask .fullName, .err .missingFullName], by simp [h, getlinep_nil], by simp, ?_⟩
      simp [Event.isDerivation]

theorem resolveSiteName_go {st st1 : State} {tr : List Event}
    (h : resolveSiteName st = .go tr st1) :
    (∃ n, st.siteName = some n ∧ st1 = st ∧ tr = []) ∨
    (st.siteName = none ∧ st.silent = false ∧ ∃ n rest, getlinep st.stdin = some (n, rest) ∧
      st1 = { st with siteName := some n, stdin := rest } ∧ tr = [.ask .siteName]) := by
  unfold resolveSiteName at h
  cases hf : st.siteName with
  | some n =>
    simp only [hf, Step.go.injEq] at h
    exact Or.inl ⟨n, rfl, h.2.symm, h.1.symm⟩
  | none =>
    simp only [hf] at h
    cases hs : st.silent with
    | true => simp [hs, ftl] at h
    | false =>
      simp only [hs] at h
      cases hg : getlinep st.stdin with
      | none => simp [hg] at h
      | some r =>
        obtain ⟨n, rest⟩ := r
        simp only [hg, Bool.false_eq_true, if_false, Step.go.injEq] at h
        exact Or.inr ⟨rfl, rfl, n, rest, rfl, h.2.symm, h.1.symm⟩

theorem resolveSiteName_stop {st : State} {tr : List Event} {x : Halt}
    (h : resolveSiteName st = .stop tr x) : x = .exit 2 := by
  unfold resolveSiteName at h
  cases hf : st.siteName with
  | some n => simp [hf] at h
  | none =>
    simp only [hf] at h
    cases hs : st.silent with
    | true =>
      simp only [hs, ftl, if_true, Step.stop.injEq] at h
      exact h.2.symm
    | false =>
      simp only [hs] at h
      cases hg : getlinep st.stdin with
      | none =>
        simp only [hg, Bool.false_eq_true, if_false, Step.stop.injEq] at h
        exact h.2.symm
      | some r => simp [hg] at h

theorem resolveSiteName_missing {st : State} (hf : st.siteName = none)
    (h : st.silent = true ∨ st.stdin = []) :
    ∃ tr, resolveSiteName st = .stop tr (.exit 2) ∧ Event.err Msg.missingSiteName ∈ tr ∧
      ∀ e ∈ tr, e.isDerivation = false := by
  unfold resolveSiteName
  simp only [hf]
  cases hs : st.silent with
  | true =>
    refine ⟨[.err .missingSiteName], by simp [ftl], by simp, ?_⟩
    simp [Event.isDerivation]
  | false =>
    rcases h with h | h
    · rw [hs] at h
      exact absurd h (by simp)
    · refine ⟨[.ask .siteName, .err .missingSiteName], by simp [h, getlinep_nil], by simp, ?_⟩
      simp [Event.isDerivation]

/-- The counter `main` checks on line 193. -/
theorem convertCounter_go {st st1 : State} {tr : List Event}
    (h : convertCounter st = .go tr st1) :
    tr = [] ∧ st1.siteCounter ≠ 0 ∧
    st1 = { st with siteCounter := (match st.siteCounterString with
                                    | some s => uint32 (atol s)
                                    | none => st.siteCounter) } := by
  unfold convertCounter at h
  dsimp only at h
  split_ifs at h with hc
  · simp [ftl] at h
  simp only [Step.go.injEq] at h
  obtain ⟨h1, h2⟩ := h
  subst h1 h2
  exact ⟨rfl, by dsimp only; omega, rfl⟩

theorem convertCounter_stop {st : State} {tr : List Event} {x : Halt}
    (h : convertCounter st = .stop tr x) :
    x = .exit 2 ∧ tr = [.err (.invalidSiteCounter 0)] ∧
    (match st.siteCounterString with
     | some s => uint32 (atol s)
     | none => st.siteCounter) = 0 := by
  unfold convertCounter at h
  dsimp only at h
  split_ifs at h with hc
  simp only [ftl, Step.stop.injEq] at h
  have h0 : (match st.siteCounterString with
     | some s => uint32 (atol s)
     | none => st.siteCounter) = 0 := by omega
  rw [h0] at h
  exact ⟨h.2.symm, h.1.symm, h0⟩

theorem convertCounter_zero {st : State}
    (h : (match st.siteCounterString with
          | some s => uint32 (atol s)
          | none => st.siteCounter) = 0) :
    convertCounter st = .stop [.err (.invalidSiteCounter 0)] (.exit 2) := by
  unfold convertCounter
  dsimp only
  rw [h]
  rfl

theorem readConfig_go {pf : Platform} {inp : Input} {st st1 : State} {tr : List Event}
    (h : readConfig pf inp st = .go tr st1) :
    ∃ mp, st1 = { st with masterPassword := mp } := by
  unfold readConfig at h
  cases hp : inp.mpwConfigPath with
  | none => simp [hp, ftl] at h
  | some path =>
    simp only [hp] at h
    cases hc : inp.mpwConfig with
    | none =>
      simp only [hc, Step.go.injEq] at h
      exact ⟨st.masterPassword, h.2.symm⟩
    | some content =>
      simp only [hc] at h
      rcases Option.eq_none_or_eq_some st.fullName with hf | ⟨name, hf⟩
      · simp [hf] at h
      · simp only [hf] at h
        cases hl : configLookup pf name (splitLines content) with
        | unchanged =>
          simp only [hl, Step.go.injEq] at h
          exact ⟨st.masterPassword, h.2.symm⟩
        | found s =>
          simp only [hl, Step.go.injEq] at h
          exact ⟨some s, by rw [hf]; exact h.2.symm⟩
        | undefined => simp [hl] at h

theorem readConfig_stop {pf : Platform} {inp : Input} {st : State} {tr : List Event}
    {x : Halt} (h : readConfig pf inp st = .stop tr x) :
    x = .exit 2 ∨ x = .undefined := by
  unfold readConfig at h
  cases hp : inp.mpwConfigPath with
  | none =>
    simp only [hp, ftl, Step.stop.injEq] at h
    exact Or.inl h.2.symm
  | some path =>
    simp only [hp] at h
    cases hc : inp.mpwConfig with
    | none => simp [hc] at h
    | some content =>
      simp only [hc] at h
      cases hf : st.fullName with
      | none =>
        simp only [hf, Step.stop.injEq] at h
        exact Or.inr h.2.symm
      | some name =>
        simp only [hf] at h
        cases hl : configLookup pf name (splitLines content) with
        | unchanged => simp [hl] at h
        | found s => simp [hl] at h
        | undefined =>
          simp only [hl, Step.stop.injEq] at h
          exact Or.inr h.2.symm

theorem askPassword_go {tty more : List (Option CStr)} {tr : List Event} {s : CStr}
    (h : askPassword tty = .go tr (s, more)) : s ≠ [] := by
  induction tty generalizing tr with
  | nil => simp [askPassword] at h
  | cons a rest ih =>
    cases a with
    | none =>
      simp only [askPassword] at h
      obtain ⟨tr2, h2, _⟩ := Step.pre_eq_go h
      exact ih h2
    | some t =>
      simp only [askPassword] at h
      by_cases ht : t.length = 0
      · rw [if_pos ht] at h
        obtain ⟨tr2, h2, _⟩ := Step.pre_eq_go h
        exact ih h2
      · rw [if_neg ht] at h
        simp only [Step.go.injEq, Prod.mk.injEq] at h
        rw [← h.2.1]
        intro hn
        exact ht (by rw [hn]; rfl)

theorem askPassword_stop {tty : List (Option CStr)} {tr : List Event} {x : Halt}
    (h : askPassword tty = .stop tr x) : x = .hang := by
  induction tty generalizing tr with
  | nil =>
    simp only [askPassword, Step.stop.injEq] at h
    exact h.2.symm
  | cons a rest ih =>
    cases a with
    | none =>
      simp only [askPassword] at h
      obtain ⟨tr2, h2, _⟩ := Step.pre_eq_stop h
      exact ih h2
    | some t =>
      simp only [askPassword] at h
      by_cases ht : t.length = 0
      · rw [if_pos ht] at h
        obtain ⟨tr2, h2, _⟩ := Step.pre_eq_stop h
        exact ih h2
      · rw [if_neg ht] at h
        simp at h

theorem readMasterPassword_go {pf : Platform} {st st1 : State} {tr : List Event}
    (h : readMasterPassword pf st = .go tr st1) :
    ∃ s rest tty, s ≠ [] ∧ st1 = { st with masterPassword := some s, stdin := rest, tty := tty } := by
  unfold readMasterPassword at h
  by_cases hs : st.silent = true
  · rw [if_pos hs] at h
    cases hg : getpass_stdin st.stdin with
    | none => simp [hg, ftl] at h
    | some r =>
      obtain ⟨s, rest⟩ := r
      simp only [hg] at h
      by_cases hl : s.length = 0
      · rw [if_pos hl] at h
        simp at h
      · rw [if_neg hl] at h
        simp only [Step.go.injEq] at h
        refine ⟨s, rest, st.tty, ?_, h.2.symm⟩
        intro hn
        exact hl (by rw [hn]; rfl)
  · rw [if_neg hs] at h
    obtain ⟨tr1, st2, tr2, h1, h2, _⟩ := Step.bind_eq_go h
    simp only [Step.go.injEq] at h2
    obtain ⟨_, h2⟩ := h2
    subst h2
    have hask : ∀ {tr1 : List Event},
        (askPassword st.tty).bind
          (fun r => Step.go [] { st with masterPassword := some r.1, tty := r.2 }) =
          .go tr1 st2 →
        ∃ s rest tty, s ≠ [] ∧
          st2 = { st with masterPassword := some s, stdin := rest, tty := tty } := by
      intro tr1 h1
      obtain ⟨tr3, r, tr4, h3, h4, _⟩ := Step.bind_eq_go h1
      obtain ⟨s, more⟩ := r
      simp only [Step.go.injEq] at h4
      exact ⟨s, st.stdin, more, askPassword_go h3, h4.2.symm⟩
    rcases Option.eq_none_or_eq_some st.masterPassword with hm | ⟨s, hm⟩
    · simp only [hm] at h1
      exact hask h1
    · simp only [hm] at h1
      by_cases hl : s.length = 0
      · rw [if_pos hl] at h1
        exact hask h1
      · rw [if_neg hl] at h1
        simp only [Step.go.injEq] at h1
        refine ⟨s, st.stdin, st.tty, ?_, ?_⟩
        · intro hn
          exact hl (by rw [hn]; rfl)
        · rw [← h1.2, ← hm]

theorem readMasterPassword_stop {pf : Platform} {st : State} {tr : List Event} {x : Halt}
    (h : readMasterPassword pf st = .stop tr x) : x = .exit 2 ∨ x = .hang := by
  unfold readMasterPassword at h
  by_cases hs : st.silent = true
  · rw [if_pos hs] at h
    cases hg : getpass_stdin st.stdin with
    | none =>
      simp only [hg, ftl, Step.stop.injEq] at h
      exact Or.inl h.2.symm
    | some r =>
      obtain ⟨s, rest⟩ := r
      simp only [hg] at h
      by_cases hl : s.length = 0
      · rw [if_pos hl] at h
        simp only [Step.stop.injEq] at h
        exact Or.inl h.2.symm
      · rw [if_neg hl] at h
        simp at h
  · rw [if_neg hs] at h
    have hask : ∀ {tr1 : List Event},
        (askPassword st.tty).bind
          (fun r => Step.go [] { st with masterPassword := some r.1, tty := r.2 }) =
          .stop tr1 x → x = .hang := by
      intro tr1 h1
      rcases Step.bind_eq_stop h1 with h2 | ⟨_, _, _, _, h2, _⟩
      · exact askPassword_stop h2
      · simp at h2
    rcases Step.bind_eq_stop h with h1 | ⟨_, _, _, _, h2, _⟩
    · right
      rcases Option.eq_none_or_eq_some st.masterPassword with hm | ⟨s, hm⟩
      · simp only [hm] at h1
        exact hask h1
      · simp only [hm] at h1
        by_cases hl : s.length = 0
        · rw [if_pos hl] at h1
          exact hask h1
        · rw [if_neg hl] at h1
          simp at h1
    · simp at h2

theorem readMasterPassword_silent_empty {pf : Platform} {st : State} (hs : st.silent = true)
    (he : ∀ s rest, getpass_stdin st.stdin = some (s, rest) → s = []) :
    ∃ tr, readMasterPassword pf st = .stop tr (.exit 2) := by
  unfold readMasterPassword
  rw [if_pos hs]
  cases hg : getpass_stdin st.stdin with
  | none => exact ⟨_, rfl⟩
  | some r =>
    obtain ⟨s, rest⟩ := r
    have := he s rest hg
    subst this
    exact ⟨_, rfl⟩

/-! ## The state on lines 180, 224 and 237 -/

theorem supplied_none (c : Char) (gs : List GetoptRet) : supplied c none gs = lastArg c gs := by
  unfold supplied
  cases lastArg c gs <;> rfl

theorem parsed_go {pf : Platform} {inp : Input} {st : State} {tr : List Event}
    (h : parsed pf inp = .go tr st) : Parsed pf inp st := by
  unfold parsed at h
  obtain ⟨tr1, st1, tr2, h1, h2, _⟩ := Step.bind_eq_go h
  obtain ⟨tr3, st0, tr4, h3, h4, _⟩ := Step.bind_eq_go h1
  have e := readEnvironment_go h3
  obtain ⟨_, e1, e2, e3, e4, e5, e6, e7, e8, e9, e10, e11, e12, e13, e14⟩ := e
  have o := readOptions_go h4
  rw [readSiteArgument_eq] at h2
  simp only [Step.go.injEq] at h2
  obtain ⟨_, h2⟩ := h2
  subst h2
  exact
    { fullName := by rw [← e1]; exact o.fullName
      siteTypeString := by rw [← e5]; exact o.siteTypeString
      siteCounterString := by rw [← e10]; exact o.siteCounterString
      siteVariantString := by rw [← supplied_none, ← e7]; exact o.siteVariantString
      siteContextString := by rw [← supplied_none, ← e8]; exact o.siteContextString
      masterPassword := by rw [← supplied_none, ← e2]; exact o.masterPassword
      algorithmVersion := by
        have hv := o.algorithmVersion
        unfold resolvedVersion
        cases hl : lastArg 'V' inp.opts with
        | none =>
          rw [hl] at hv
          simp only at hv ⊢
          rw [← e14]
          exact hv
        | some a =>
          rw [hl] at hv
          exact hv
      silent := by
        have := o.silent
        rw [e11, Bool.false_or] at this
        exact this
      siteName := by
        show (match inp.site with
              | some a => some a
              | none => st1.siteName) = inp.site
        rw [o.siteName, e3]
        cases inp.site <;> rfl
      siteType := by rw [← e4]; exact o.siteType
      siteVariant := by rw [← e6]; exact o.siteVariant
      siteCounter := by rw [← e9]; exact o.siteCounter
      stdin := by rw [← e12]; exact o.stdin
      tty := by rw [← e13]; exact o.tty }

theorem parsed_stop {pf : Platform} {inp : Input} {tr : List Event} {x : Halt}
    (h : parsed pf inp = .stop tr x) :
    x = .exit 2 ∨ (x = .exit 0 ∧ Event.err Msg.usage ∈ tr) := by
  unfold parsed at h
  rcases Step.bind_eq_stop h with h1 | ⟨_, _, _, _, h2, _⟩
  · rcases Step.bind_eq_stop h1 with h3 | ⟨tr1, st0, tr2, h3, h4, h5⟩
    · exact Or.inl (readEnvironment_stop h3)
    · rcases readOptions_stop h4 with c | c
      · exact Or.inl c
      · exact Or.inr ⟨c.1, by rw [h5]; exact List.mem_append_right _ c.2⟩
  · rw [readSiteArgument_eq] at h2
    simp at h2

theorem resolveFullName_form {st st1 : State} {tr : List Event}
    (h : resolveFullName st = .go tr st1) :
    ∃ f sd, st1 = { st with fullName := some f, stdin := sd } ∧
      (st.silent = true → sd = st.stdin) ∧
      some f = (match st.fullName with
                | some n => some n
                | none =>
                  match getlinep st.stdin with
                  | some r => some r.1
                  | none => none) := by
  rcases resolveFullName_go h with ⟨n, h1, h2, _⟩ | ⟨h1, h2, n, rest, h3, h4, _⟩
  · refine ⟨n, st.stdin, ?_, fun _ => rfl, by rw [h1]⟩
    rw [h2, ← h1]
  · refine ⟨n, rest, h4, ?_, by rw [h1, h3]⟩
    intro hs
    rw [h2] at hs
    exact absurd hs (by simp)

theorem resolveSiteName_form {st st1 : State} {tr : List Event}
    (h : resolveSiteName st = .go tr st1) :
    ∃ f sd, st1 = { st with siteName := some f, stdin := sd } ∧
      (st.silent = true → sd = st.stdin) ∧ (∀ a, st.siteName = some a → f = a) := by
  rcases resolveSiteName_go h with ⟨n, h1, h2, _⟩ | ⟨h1, h2, n, rest, h3, h4, _⟩
  · refine ⟨n, st.stdin, ?_, fun _ => rfl, ?_⟩
    · rw [h2, ← h1]
    · intro a ha
      rw [h1] at ha
      exact Option.some.inj ha
  · refine ⟨n, rest, h4, ?_, ?_⟩
    · intro hs
      rw [h2] at hs
      exact absurd hs (by simp)
    · intro a ha
      rw [h1] at ha
      exact absurd ha (by simp)

theorem names_go {pf : Platform} {inp : Input} {st : State} {tr : List Event}
    (h : names pf inp = .go tr st) : Named pf inp st := by
  unfold names at h
  obtain ⟨tr1, st1, tr2, h1, h2, _⟩ := Step.bind_eq_go h
  obtain ⟨tr3, st0, tr4, h3, h4, _⟩ := Step.bind_eq_go h1
  have P := parsed_go h3
  obtain ⟨f, sd, e1, s1, f1⟩ := resolveFullName_form h4
  obtain ⟨g, sd2, e2, s2, g1⟩ := resolveSiteName_form h2
  subst e1
  subst e2
  exact
    { fullName := by
        show some f = resolvedFullName inp
        rw [f1]
        unfold resolvedFullName
        rw [P.fullName, P.stdin]
      fullName_some := by simp
      siteName_some := by simp
      siteName_arg := by
        intro a ha
        show some g = some a
        rw [g1 a (by show st0.siteName = some a; rw [P.siteName, ha])]
      siteTypeString := P.siteTypeString
      siteCounterString := P.siteCounterString
      siteVariantString := P.siteVariantString
      siteContextString := P.siteContextString
      algorithmVersion := P.algorithmVersion
      silent := P.silent
      siteType := P.siteType
      siteVariant := P.siteVariant
      siteCounter := P.siteCounter
      stdin_silent := by
        intro hs
        show sd2 = inp.stdin
        rw [s2 hs, s1 hs, P.stdin]
      tty := P.tty }

theorem names_stop {pf : Platform} {inp : Input} {tr : List Event} {x : Halt}
    (h : names pf inp = .stop tr x) :
    x = .exit 2 ∨ (x = .exit 0 ∧ Event.err Msg.usage ∈ tr) := by
  unfold names at h
  rcases Step.bind_eq_stop h with h1 | ⟨_, _, _, _, h2, _⟩
  · rcases Step.bind_eq_stop h1 with h3 | ⟨_, _, _, _, h4, _⟩
    · exact parsed_stop h3
    · exact Or.inl (resolveFullName_stop h4)
  · exact Or.inl (resolveSiteName_stop h2)

theorem defaultType_eq (v : MPSiteVariant) :
    (if v = MPSiteVariant.Answer then MPSiteType.GeneratedPhrase
     else if v = MPSiteVariant.Login then MPSiteType.GeneratedName
     else MPSiteType.GeneratedLong) = defaultType v := by
  cases v <;> rfl

theorem settled_go {pf : Platform} {inp : Input} {st : State} {tr : List Event}
    (h : settled pf inp = .go tr st) : Settled pf inp st := by
  unfold settled at h
  obtain ⟨tr1, st3, tr2, h1, h2, _⟩ := Step.bind_eq_go h
  obtain ⟨tr3, st2, tr4, h3, h4, _⟩ := Step.bind_eq_go h1
  obtain ⟨tr5, st1, tr6, h5, h6, _⟩ := Step.bind_eq_go h3
  have N := names_go h5
  obtain ⟨_, cpos, e1⟩ := convertCounter_go h6
  obtain ⟨mp, e3⟩ := readConfig_go h2
  simp only [convertType, Step.go.injEq] at h4
  obtain ⟨_, e2⟩ := h4
  subst e3
  subst e2
  have hc : st2.siteCounter = resolvedCounter inp := by
    rw [e1]
    show (match st1.siteCounterString with
          | some s => uint32 (atol s)
          | none => st1.siteCounter) = resolvedCounter inp
    unfold resolvedCounter
    rw [N.siteCounterString, N.siteCounter]
  have hv : (match st2.siteVariantString with
             | some s => pf.mpw_variantWithName s
             | none => st2.siteVariant) = resolvedVariant pf inp := by
    rw [e1]
    show (match st1.siteVariantString with
          | some s => pf.mpw_variantWithName s
          | none => st1.siteVariant) = resolvedVariant pf inp
    unfold resolvedVariant
    rw [N.siteVariantString, N.siteVariant]
  exact
    { fullName := by rw [e1]; exact N.fullName
      fullName_some := by rw [e1]; exact N.fullName_some
      siteName_some := by rw [e1]; exact N.siteName_some
      siteName_arg := by rw [e1]; exact N.siteName_arg
      siteCounter := hc
      siteCounter_pos := cpos
      siteVariant := hv
      siteType := by
        show (match st2.siteTypeString with
              | some s => pf.mpw_typeWithName s
              | none => _) = resolvedType pf inp
        rw [hv]
        unfold resolvedType
        have h1 : st2.siteTypeString = supplied 't' inp.env_sitetype inp.opts := by
          rw [e1]; exact N.siteTypeString
        have h2 : st2.siteType = MPSiteType.GeneratedLong := by
          rw [e1]; exact N.siteType
        rw [h1, h2, defaultType_eq]
      algorithmVersion := by rw [e1]; exact N.algorithmVersion
      siteContextString := by rw [e1]; exact N.siteContextString
      silent := by rw [e1]; exact N.silent
      stdin_silent := by rw [e1]; exact N.stdin_silent
      tty := by rw [e1]; exact N.tty }

theorem settled_stop {pf : Platform} {inp : Input} {tr : List Event} {x : Halt}
    (h : settled pf inp = .stop tr x) :
    x = .exit 2 ∨ (x = .exit 0 ∧ Event.err Msg.usage ∈ tr) ∨ x = .undefined := by
  unfold settled at h
  rcases Step.bind_eq_stop h with h1 | ⟨_, _, _, _, h2, _⟩
  · rcases Step.bind_eq_stop h1 with h3 | ⟨_, _, _, _, h4, _⟩
    · rcases Step.bind_eq_stop h3 with h5 | ⟨_, _, _, _, h6, _⟩
      · rcases names_stop h5 with c | c
        · exact Or.inl c
        · exact Or.inr (Or.inl c)
      · exact Or.inl (convertCounter_stop h6).1
    · simp [convertType] at h4
  · rcases readConfig_stop h2 with c | c
    · exact Or.inl c
    · exact Or.inr (Or.inr c)

theorem front_go {pf : Platform} {inp : Input} {st : State} {tr : List Event}
    (h : front pf inp = .go tr st) : Resolved pf inp st := by
  unfold front at h
  obtain ⟨tr1, st0, tr2, h1, h2, _⟩ := Step.bind_eq_go h
  have S := settled_go h1
  obtain ⟨s, rest, tty, hs, e⟩ := readMasterPassword_go h2
  subst e
  exact
    { fullName := S.fullName
      fullName_some := S.fullName_some
      siteName_some := S.siteName_some
      siteName_arg := S.siteName_arg
      siteCounter := S.siteCounter
      siteCounter_pos := S.siteCounter_pos
      siteVariant := S.siteVariant
      siteType := S.siteType
      algorithmVersion := S.algorithmVersion
      siteContextString := S.siteContextString
      secret := ⟨s, rfl, hs⟩ }

theorem front_stop {pf : Platform} {inp : Input} {tr : List Event} {x : Halt}
    (h : front pf inp = .stop tr x) :
    x = .exit 2 ∨ (x = .exit 0 ∧ Event.err Msg.usage ∈ tr) ∨ x = .undefined ∨ x = .hang := by
  unfold front at h
  rcases Step.bind_eq_stop h with h1 | ⟨_, _, _, _, h2, _⟩
  · rcases settled_stop h1 with c | c | c
    · exact Or.inl c
    · exact Or.inr (Or.inl c)
    · exact Or.inr (Or.inr (Or.inl c))
  · rcases readMasterPassword_stop h2 with c | c
    · exact Or.inl c
    · exact Or.inr (Or.inr (Or.inr c))

/-! ## The shape of a run -/

theorem main_of_front_go {pf : Platform} {inp : Input} {st : State} {tr : List Event}
    (h : front pf inp = .go tr st) : main pf inp = (output pf st).pre tr := by
  unfold main
  rw [h]
  rfl

theorem main_of_front_stop {pf : Platform} {inp : Input} {tr : List Event} {x : Halt}
    (h : front pf inp = .stop tr x) : main pf inp = .stop tr x := by
  unfold main
  rw [h]
  rfl

theorem early_of_front_go {pf : Platform} {inp : Input} {st : State} {tr : List Event}
    (h : front pf inp = .go tr st) : ∀ e ∈ tr, e.early = true := by
  have := allEarly_front pf inp
  rw [h] at this
  exact this

theorem early_of_front_stop {pf : Platform} {inp : Input} {tr : List Event} {x : Halt}
    (h : front pf inp = .stop tr x) : ∀ e ∈ tr, e.early = true := by
  have := allEarly_front pf inp
  rw [h] at this
  exact this

theorem front_cases (pf : Platform) (inp : Input) :
    (∃ tr st, front pf inp = .go tr st) ∨ (∃ tr x, front pf inp = .stop tr x) := by
  cases h : front pf inp with
  | go tr st => exact Or.inl ⟨tr, st, rfl⟩
  | stop tr x => exact Or.inr ⟨tr, x, rfl⟩

theorem mem_main_trace {pf : Platform} {inp : Input} {e : Event}
    (he : e ∈ (main pf inp).trace) (hne : e.early = false) :
    ∃ tr st, front pf inp = .go tr st ∧ e ∈ (output pf st).trace := by
  rcases front_cases pf inp with ⟨tr, st, h⟩ | ⟨tr, x, h⟩
  · refine ⟨tr, st, h, ?_⟩
    rw [main_of_front_go h, Step.trace_pre, List.mem_append] at he
    rcases he with he | he
    · have := early_of_front_go h e he
      rw [hne] at this
      exact absurd this (by simp)
    · exact he
  · rw [main_of_front_stop h] at he
    have := early_of_front_stop h e he
    rw [hne] at this
    exact absurd this (by simp)

theorem mem_output_masterKey {pf : Platform} {st : State} {n p : Option CStr} {v : Nat}
    (h : Event.masterKeyForUser n p v ∈ (output pf st).trace) :
    n = st.fullName ∧ p = st.masterPassword ∧ v = st.algorithmVersion := by
  unfold output at h
  cases hk : pf.mpw_masterKeyForUser st.fullName st.masterPassword st.algorithmVersion with
  | none =>
    simp only [hk, Step.trace] at h
    simpa using h
  | some key =>
    simp only [hk] at h
    cases hp : pf.mpw_passwordForSite key st.siteName st.siteType st.siteCounter
        st.siteVariant st.siteContextString st.algorithmVersion with
    | none =>
      simp only [hp, Step.trace] at h
      simpa using h
    | some sp =>
      simp only [hp, Step.trace] at h
      simpa using h

theorem mem_output_site {pf : Platform} {st : State} {k : Key} {sn cx : Option CStr}
    {t : MPSiteType} {c v : Nat} {va : MPSiteVariant}
    (h : Event.passwordForSite k sn t c va cx v ∈ (output pf st).trace) :
    pf.mpw_masterKeyForUser st.fullName st.masterPassword st.algorithmVersion = some k ∧
    sn = st.siteName ∧ t = st.siteType ∧ c = st.siteCounter ∧ va = st.siteVariant ∧
    cx = st.siteContextString ∧ v = st.algorithmVersion := by
  unfold output at h
  cases hk : pf.mpw_masterKeyForUser st.fullName st.masterPassword st.algorithmVersion with
  | none =>
    simp only [hk, Step.trace] at h
    simp at h
  | some key =>
    simp only [hk] at h
    cases hp : pf.mpw_passwordForSite key st.siteName st.siteType st.siteCounter
        st.siteVariant st.siteContextString st.algorithmVersion with
    | none =>
      simp only [hp, Step.trace] at h
      simp at h
      obtain ⟨h1, h2, h3, h4, h5, h6, h7⟩ := h
      subst h1
      exact ⟨rfl, h2, h3, h4, h5, h6, h7⟩
    | some sp =>
      simp only [hp, Step.trace] at h
      simp at h
      obtain ⟨h1, h2, h3, h4, h5, h6, h7⟩ := h
      subst h1
      exact ⟨rfl, h2, h3, h4, h5, h6, h7⟩

/-! ## The password prompt -/

theorem not_derivation_of_early {e : Event} (h : e.early = true) : e.isDerivation = false := by
  cases e <;> simp [Event.early] at h <;> rfl

theorem askPassword_junk (junk : List (Option CStr)) (s : CStr) (more : List (Option CStr))
    (hj : ∀ a ∈ junk, NoSecret a) (hs : s ≠ []) :
    ∃ tr, askPassword (junk ++ some s :: more) = .go tr (s, more) ∧
      tr.count (Event.ask Prompt.masterPassword) = junk.length + 1 := by
  induction junk with
  | nil =>
    have hl : ¬ s.length = 0 := fun h => hs (List.length_eq_zero.mp h)
    refine ⟨[.ask .masterPassword, .secret .getpass s], ?_, ?_⟩
    · simp only [List.nil_append, askPassword, if_neg hl]
    · simp
  | cons a junk ih =>
    obtain ⟨tr, h1, h2⟩ := ih (fun b hb => hj b (List.mem_cons_of_mem _ hb))
    rcases hj a (List.mem_cons_self _ _) with ha | ha
    · subst ha
      refine ⟨[.ask .masterPassword] ++ tr, ?_, ?_⟩
      · show askPassword (none :: (junk ++ some s :: more)) = _
        simp only [askPassword]
        rw [h1]
        rfl
      · rw [List.count_append, h2]
        simp
        omega
    · subst ha
      refine ⟨[.ask .masterPassword, .secret .getpass []] ++ tr, ?_, ?_⟩
      · show askPassword (some [] :: (junk ++ some s :: more)) = _
        simp only [askPassword, List.length_nil, if_true]
        rw [h1]
        rfl
      · rw [List.count_append, h2]
        simp
        omega

theorem askPassword_hang (tty : List (Option CStr)) (hj : ∀ a ∈ tty, NoSecret a) :
    ∃ tr, askPassword tty = .stop tr .hang := by
  induction tty with
  | nil => exact ⟨[], rfl⟩
  | cons a tty ih =>
    obtain ⟨tr, h1⟩ := ih (fun b hb => hj b (List.mem_cons_of_mem _ hb))
    rcases hj a (List.mem_cons_self _ _) with ha | ha
    · subst ha
      refine ⟨[.ask .masterPassword] ++ tr, ?_⟩
      simp only [askPassword]
      rw [h1]
      rfl
    · subst ha
      refine ⟨[.ask .masterPassword, .secret .getpass []] ++ tr, ?_⟩
      simp only [askPassword, List.length_nil, if_true]
      rw [h1]
      rfl

theorem readMasterPassword_prompt {pf : Platform} {st : State} (hs : st.silent = false)
    (hm : NoSecret st.masterPassword) (junk : List (Option CStr)) (s : CStr)
    (more : List (Option CStr)) (ht : st.tty = junk ++ some s :: more)
    (hj : ∀ a ∈ junk, NoSecret a) (hne : s ≠ []) :
    ∃ tr, readMasterPassword pf st =
        .go tr { st with masterPassword := some s, tty := more } ∧
      tr.count (Event.ask Prompt.masterPassword) = junk.length + 1 := by
  obtain ⟨tr, h1, h2⟩ := askPassword_junk junk s more hj hne
  have hasked : (askPassword st.tty).bind
      (fun r => Step.go [] { st with masterPassword := some r.1, tty := r.2 }) =
      .go (tr ++ []) { st with masterPassword := some s, tty := more } := by
    rw [ht, h1]
    rfl
  refine ⟨tr ++ [] ++ [.summary st.fullName st.siteName
    (pf.mpw_identicon st.fullName (some s))], ?_, ?_⟩
  · have hpick : (match st.masterPassword with
        | none =>
          (askPassword st.tty).bind
            (fun r => Step.go [] { st with masterPassword := some r.1, tty := r.2 })
        | some s =>
          if s.length = 0 then
            (askPassword st.tty).bind
              (fun r => Step.go [] { st with masterPassword := some r.1, tty := r.2 })
          else .go [] st) =
        .go (tr ++ []) { st with masterPassword := some s, tty := more } := by
      rw [← hasked]
      rcases hm with hm | hm
      · rw [hm]
      · rw [hm]
        rfl
    unfold readMasterPassword
    rw [if_neg (by rw [hs]; simp)]
    dsimp only
    rw [hpick]
    rfl
  · rw [List.count_append, List.count_append, h2]
    simp

/-! ## Runs that end before the key derivation -/

theorem front_of_names_stop {pf : Platform} {inp : Input} {tr : List Event} {x : Halt}
    (h : names pf inp = .stop tr x) : front pf inp = .stop tr x := by
  unfold front settled
  rw [h]
  rfl

theorem quiet_of_names_stop {pf : Platform} {inp : Input} {tr : List Event} {x : Halt}
    (h : names pf inp = .stop tr x) : ∀ e ∈ tr, e.isDerivation = false :=
  fun e he => not_derivation_of_early (early_of_front_stop (front_of_names_stop h) e he)

theorem main_of_names_stop {pf : Platform} {inp : Input} {tr : List Event} {x : Halt}
    (h : names pf inp = .stop tr x) : main pf inp = .stop tr x := by
  unfold main front settled
  rw [h]
  rfl

theorem main_of_counter_zero {pf : Platform} {inp : Input} {tr : List Event} {st : State}
    (h : names pf inp = .go tr st) (h0 : resolvedCounter inp = 0) :
    main pf inp = .stop (tr ++ [.err (.invalidSiteCounter 0)]) (.exit 2) := by
  have N := names_go h
  have hz : convertCounter st = .stop [.err (.invalidSiteCounter 0)] (.exit 2) := by
    apply convertCounter_zero
    rw [N.siteCounterString, N.siteCounter]
    exact h0
  unfold main front settled
  rw [h, Step.bind_go, hz]
  rfl

theorem stdoutOf_append (a b : List Event) : stdoutOf (a ++ b) = stdoutOf a ++ stdoutOf b := by
  induction a with
  | nil => rfl
  | cons e a ih =>
    cases e <;> simp [stdoutOf, ih]

theorem stdoutOf_early {tr : List Event} (h : ∀ e ∈ tr, e.early = true) : stdoutOf tr = [] := by
  induction tr with
  | nil => rfl
  | cons e tr ih =>
    have he := h e (List.mem_cons_self _ _)
    have ih2 := ih (fun x hx => h x (List.mem_cons_of_mem _ hx))
    cases e <;> simp [Event.early] at he <;> simp [stdoutOf, ih2]

/-! ## Release right after use -/

theorem followedBy_append {tr out : List Event} {a b : Event} (h1 : ∀ e ∈ tr, e ≠ a)
    (h2 : FollowedBy out a b) : FollowedBy (tr ++ out) a b := by
  induction tr with
  | nil => exact h2
  | cons x tr ih =>
    intro before after h
    cases before with
    | nil =>
      simp only [List.nil_append, List.cons_append, List.cons.injEq] at h
      exact absurd h.1 (h1 x (List.mem_cons_self _ _))
    | cons y before =>
      simp only [List.cons_append, List.cons.injEq] at h
      exact ih (fun e he => h1 e (List.mem_cons_of_mem _ he)) before after h.2

theorem followedBy_output_key (pf : Platform) (st : State) (n p : Option CStr) (v : Nat) :
    FollowedBy (output pf st).trace (.masterKeyForUser n p v) (.freeString p) := by
  unfold output
  cases pf.mpw_masterKeyForUser st.fullName st.masterPassword st.algorithmVersion with
  | none =>
    intro before after h
    rcases before with _ | ⟨x1, _ | ⟨x2, _ | ⟨x3, _ | ⟨x4, before⟩⟩⟩⟩ <;>
      simp [Step.trace] at h
    obtain ⟨⟨-, rfl, -⟩, rfl⟩ := h
    exact ⟨_, rfl⟩
  | some key =>
    dsimp only
    cases pf.mpw_passwordForSite key st.siteName st.siteType st.siteCounter st.siteVariant
        st.siteContextString st.algorithmVersion with
    | none =>
      intro before after h
      rcases before with _ | ⟨x1, _ | ⟨x2, _ | ⟨x3, _ | ⟨x4, _ | ⟨x5, _ | ⟨x6, before⟩⟩⟩⟩⟩⟩ <;>
        simp [Step.trace] at h
      obtain ⟨⟨-, rfl, -⟩, rfl⟩ := h
      exact ⟨_, rfl⟩
    | some sp =>
      intro before after h
      rcases before with _ | ⟨x1, _ | ⟨x2, _ | ⟨x3, _ | ⟨x4, _ | ⟨x5, _ | ⟨x6, before⟩⟩⟩⟩⟩⟩ <;>
        simp [Step.trace] at h
      obtain ⟨⟨-, rfl, -⟩, rfl⟩ := h
      exact ⟨_, rfl⟩

theorem followedBy_output_site (pf : Platform) (st : State) (k : Key) (sn cx : Option CStr)
    (t : MPSiteType) (c v : Nat) (va : MPSiteVariant) :
    FollowedBy (output pf st).trace (.passwordForSite k sn t c va cx v) (.free k) := by
  unfold output
  cases pf.mpw_masterKeyForUser st.fullName st.masterPassword st.algorithmVersion with
  | none =>
    intro before after h
    rcases before with _ | ⟨x1, _ | ⟨x2, _ | ⟨x3, _ | ⟨x4, before⟩⟩⟩⟩ <;>
      simp [Step.trace] at h
  | some key =>
    dsimp only
    cases pf.mpw_passwordForSite key st.siteName st.siteType st.siteCounter st.siteVariant
        st.siteContextString st.algorithmVersion with
    | none =>
      intro before after h
      rcases before with _ | ⟨x1, _ | ⟨x2, _ | ⟨x3, _ | ⟨x4, _ | ⟨x5, _ | ⟨x6, before⟩⟩⟩⟩⟩⟩ <;>
        simp [Step.trace] at h
      obtain ⟨-, -, ⟨rfl, -⟩, rfl⟩ := h
      exact ⟨_, rfl⟩
    | some sp =>
      intro before after h
      rcases before with _ | ⟨x1, _ | ⟨x2, _ | ⟨x3, _ | ⟨x4, _ | ⟨x5, _ | ⟨x6, before⟩⟩⟩⟩⟩⟩ <;>
        simp [Step.trace] at h
      obtain ⟨-, -, ⟨rfl, -⟩, rfl⟩ := h
      exact ⟨_, rfl⟩

theorem followedBy_main (pf : Platform) (inp : Input) (a b : Event) (ha : a.early = false)
    (h : ∀ st, FollowedBy (output pf st).trace a b) : FollowedBy (main pf inp).trace a b := by
  have hne : ∀ tr : List Event, (∀ e ∈ tr, e.early = true) → ∀ e ∈ tr, e ≠ a := by
    intro tr htr e he hea
    have := htr e he
    rw [hea, ha] at this
    exact absurd this (by simp)
  cases hf : front pf inp with
  | go tr st =>
    rw [main_of_front_go hf, Step.trace_pre]
    exact followedBy_append (hne tr (early_of_front_go hf)) (h st)
  | stop tr x =>
    rw [main_of_front_stop hf]
    have := @followedBy_append tr [] a b (hne tr (early_of_front_stop hf))
      (by
        intro before after h
        simp at h)
    simpa [Step.trace] using this

/-! ## The conversion of the counter -/

theorem digit_bounds {c : Char} (h : c.isDigit = true) : 48 ≤ c.toNat ∧ c.toNat ≤ 57 := by
  simp only [Char.isDigit, Bool.and_eq_true, decide_eq_true_eq] at h
  obtain ⟨h1, h2⟩ := h
  have e1 : (48 : UInt32) ≤ c.val ↔ (48 : UInt32).toNat ≤ c.val.toNat := Iff.rfl
  have e2 : c.val ≤ (57 : UInt32) ↔ c.val.toNat ≤ (57 : UInt32).toNat := Iff.rfl
  rw [ge_iff_le, e1] at h1
  rw [e2] at h2
  exact ⟨h1, h2⟩

theorem atol_of_denotes {s : CStr} {n : Nat} (h : Denotes s n) (hn : n < 2 ^ 63) :
    atol s = (n : Int) := by
  obtain ⟨hne, hd, hv⟩ := h
  cases s with
  | nil => exact absurd rfl hne
  | cons c r =>
    have hc := digit_bounds (hd c (List.mem_cons_self _ _))
    have hsp : ¬ isspace c = true := by
      simp only [isspace, Bool.or_eq_true, beq_iff_eq, Bool.and_eq_true, decide_eq_true_eq]
      omega
    have hminus : c ≠ '-' := by
      intro e
      subst e
      exact absurd hc.1 (by decide)
    have hplus : c ≠ '+' := by
      intro e
      subst e
      exact absurd hc.1 (by decide)
    have htake : (c :: r).takeWhile Char.isDigit = c :: r :=
      List.takeWhile_eq_self_iff.mpr hd
    unfold atol
    rw [List.dropWhile_cons_of_neg hsp]
    simp only [if_neg hminus, if_neg hplus]
    rw [htake, hv]
    have : (n : Int) ≤ 2 ^ 63 - 1 := by
      have : (n : Int) < 2 ^ 63 := by exact_mod_cast hn
      omega
    exact min_eq_right this

theorem uint32_of_denotes {s : CStr} {n : Nat} (h : Denotes s n) (hn : n < 2 ^ 32) :
    uint32 (atol s) = n := by
  rw [atol_of_denotes h (lt_trans hn (by norm_num))]
  unfold uint32
  have : ((n : Int) % 2 ^ 32) = (n : Int) := by
    apply Int.emod_eq_of_lt
    · exact Int.ofNat_nonneg n
    · exact_mod_cast hn
  rw [this]
  exact Int.toNat_ofNat n

/-! ## The end of a run that reaches the key derivation, and of a silent run -/

theorem front_of_settled_stop {pf : Platform} {inp : Input} {tr : List Event} {x : Halt}
    (h : settled pf inp = .stop tr x) : front pf inp = .stop tr x := by
  unfold front
  rw [h]
  rfl

theorem noSecret_of_lineMissingOrEmpty {stdin : List Char} (h : LineMissingOrEmpty stdin) :
    NoSecret (stdinSecret stdin) := by
  rcases h with h | ⟨rest, h⟩
  · subst h
    exact Or.inl rfl
  · subst h
    right
    have hl : splitLines (NL :: rest) = [NL] :: splitLines rest := by
      simp only [splitLines, if_true]
    have hg : getline (NL :: rest) = some ([NL], rest) := by
      unfold getline
      rw [hl]
      rfl
    unfold stdinSecret getpass_stdin
    rw [hg]
    rfl

theorem mem_output_free {pf : Platform} {st : State} {n p : Option CStr} {v : Nat} {key : Key}
    (h : Event.masterKeyForUser n p v ∈ (output pf st).trace)
    (hk : pf.mpw_masterKeyForUser n p v = some key) :
    Event.free key ∈ (output pf st).trace := by
  obtain ⟨hn, hp, hv⟩ := mem_output_masterKey h
  subst hn hp hv
  unfold output
  rw [hk]
  dsimp only
  cases pf.mpw_passwordForSite key st.siteName st.siteType st.siteCounter st.siteVariant
      st.siteContextString st.algorithmVersion with
  | none => simp [Step.trace]
  | some sp => simp [Step.trace]

theorem mem_output_freeString {pf : Platform} {st : State} {n p : Option CStr} {v : Nat}
    (h : Event.masterKeyForUser n p v ∈ (output pf st).trace) :
    Event.freeString p ∈ (output pf st).trace := by
  obtain ⟨hn, hp, hv⟩ := mem_output_masterKey h
  subst hn hp hv
  unfold output
  cases pf.mpw_masterKeyForUser st.fullName st.masterPassword st.algorithmVersion with
  | none => simp [Step.trace]
  | some key =>
    dsimp only
    cases pf.mpw_passwordForSite key st.siteName st.siteType st.siteCounter st.siteVariant
        st.siteContextString st.algorithmVersion with
    | none => simp [Step.trace]
    | some sp => simp [Step.trace]

theorem output_ends (pf : Platform) (st : State) :
    (∃ tr, output pf st = .go tr 0) ∨ (∃ tr, output pf st = .stop tr (.exit 2)) := by
  unfold output
  cases pf.mpw_masterKeyForUser st.fullName st.masterPassword st.algorithmVersion with
  | none => exact Or.inr ⟨_, rfl⟩
  | some key =>
    dsimp only
    cases pf.mpw_passwordForSite key st.siteName st.siteType st.siteCounter st.siteVariant
        st.siteContextString st.algorithmVersion with
    | none => exact Or.inr ⟨_, rfl⟩
    | some sp => exact Or.inl ⟨_, rfl⟩

/-! ## The claims -/

/-- C3: whenever `main` calls `mpw_passwordForSite`, the variant passed is Password when no
`-v` is given; when no type name is supplied (neither `-t` nor `MP_SITETYPE`) the site type
passed follows from the variant passed alone, Long for Password, Name for Login and Phrase for
Answer; and when a type name is supplied, the type passed is `mpw_typeWithName` of that name,
whatever the variant. -/
theorem siteType_from_variant_or_name (pf : Platform) (inp : Input) (k : Key)
    (sn cx : Option CStr) (t : MPSiteType) (c v : Nat) (va : MPSiteVariant)
    (h : Event.passwordForSite k sn t c va cx v ∈ (main pf inp).trace) :
    (lastArg 'v' inp.opts = none → va = MPSiteVariant.Password) ∧
    (supplied 't' inp.env_sitetype inp.opts = none →
      (va = MPSiteVariant.Password → t = MPSiteType.GeneratedLong) ∧
      (va = MPSiteVariant.Login → t = MPSiteType.GeneratedName) ∧
      (va = MPSiteVariant.Answer → t = MPSiteType.GeneratedPhrase)) ∧
    (∀ name, supplied 't' inp.env_sitetype inp.opts = some name →
      t = pf.mpw_typeWithName name) := by
  obtain ⟨tr, st, hf, he⟩ := mem_main_trace h rfl
  obtain ⟨_, _, ht, _, hva, _, _⟩ := mem_output_site he
  have R := front_go hf
  have hva2 : va = resolvedVariant pf inp := by rw [hva]; exact R.siteVariant
  have ht2 : t = resolvedType pf inp := by rw [ht]; exact R.siteType
  refine ⟨?_, ?_, ?_⟩
  · intro hv
    rw [hva2]
    unfold resolvedVariant
    rw [hv]
  · intro hn
    have : t = defaultType va := by
      rw [ht2, hva2]
      unfold resolvedType
      rw [hn]
    rw [this]
    refine ⟨?_, ?_, ?_⟩ <;> intro hx <;> rw [hx] <;> rfl
  · intro name hn
    rw [ht2]
    unfold resolvedType
    rw [hn]

/-- Witness of C3: the run `mpw -u bob -P pw -v l site` calls the synthesizer with variant
Login and type Name. -/
theorem siteType_from_variant_or_name_witness :
    Event.passwordForSite [1] (some ['s']) MPSiteType.GeneratedName 1 MPSiteVariant.Login
      none 3 ∈ (main examplePlatform loginRun).trace ∧
    supplied 't' loginRun.env_sitetype loginRun.opts = none ∧
    ((lastArg 'v' loginRun.opts = none → MPSiteVariant.Login = MPSiteVariant.Password) ∧
    (supplied 't' loginRun.env_sitetype loginRun.opts = none →
      (MPSiteVariant.Login = MPSiteVariant.Password →
        MPSiteType.GeneratedName = MPSiteType.GeneratedLong) ∧
      (MPSiteVariant.Login = MPSiteVariant.Login →
        MPSiteType.GeneratedName = MPSiteType.GeneratedName) ∧
      (MPSiteVariant.Login = MPSiteVariant.Answer →
        MPSiteType.GeneratedName = MPSiteType.GeneratedPhrase)) ∧
    (∀ name, supplied 't' loginRun.env_sitetype loginRun.opts = some name →
      MPSiteType.GeneratedName = examplePlatform.mpw_typeWithName name)) :=
  ⟨by decide, by decide,
    siteType_from_variant_or_name examplePlatform loginRun [1] (some ['s']) none
      MPSiteType.GeneratedName 1 3 MPSiteVariant.Login (by decide)⟩

/-- C4, as the claim states it, fails on the run `mpw -s -h x` with standard input at end
of file: the run is in silent mode and the line on stdin is missing, and it ends with the usage
text and exit status 0, not with a fatal error and status 2. -/
theorem silent_missing_line_usage_exit :
    silentGiven silentHelpRun.opts = true ∧ LineMissingOrEmpty silentHelpRun.stdin ∧
    main examplePlatform silentHelpRun = .stop [.err .usage] (.exit 0) :=
  ⟨by decide, Or.inl rfl, by decide⟩

/-- C4, amended: `main` never calls `mpw_masterKeyForUser` with a NULL or empty master
secret.  In silent mode with a missing or empty line on stdin no derivation call is ever
made and the run ends before the key derivation: with a fatal error and exit status 2 when
it reaches line 224, and otherwise where it ended earlier, with a fatal error and status 2,
with the usage text and status 0, or in the configuration lookup.  In interactive mode,
when the run reaches line 224 without a secret, the password prompt is shown once for each
answer that is NULL or empty and once more for the first non-empty answer, which is the
secret passed to `mpw_masterKeyForUser`. -/
theorem masterKey_secret_never_empty (pf : Platform) (inp : Input) :
    (∀ n p v, Event.masterKeyForUser n p v ∈ (main pf inp).trace → ∃ s, p = some s ∧ s ≠ []) ∧
    (silentGiven inp.opts = true → LineMissingOrEmpty inp.stdin →
      (∀ e ∈ (main pf inp).trace, e.isDerivation = false) ∧
      (∃ tr x, main pf inp = .stop tr x ∧
        (x = .exit 2 ∨ (x = .exit 0 ∧ Event.err Msg.usage ∈ tr) ∨ x = .undefined) ∧
        ((∃ tr0 st, settled pf inp = .go tr0 st) → x = .exit 2))) ∧
    (∀ tr st junk s more, settled pf inp = .go tr st → silentGiven inp.opts = false →
      NoSecret st.masterPassword → inp.tty = junk ++ some s :: more →
      (∀ a ∈ junk, NoSecret a) → s ≠ [] →
      ∃ tr2, front pf inp = .go (tr ++ tr2) { st with masterPassword := some s, tty := more } ∧
        tr2.count (Event.ask Prompt.masterPassword) = junk.length + 1 ∧
        Event.masterKeyForUser st.fullName (some s) st.algorithmVersion ∈
          (main pf inp).trace) := by
  have silentStop : ∀ tr st, settled pf inp = .go tr st → silentGiven inp.opts = true →
      LineMissingOrEmpty inp.stdin →
      ∃ tr2, front pf inp = .stop tr2 (.exit 2) := by
    intro tr st hst hsil hline
    have hno := noSecret_of_lineMissingOrEmpty hline
    have S := settled_go hst
    have hs : st.silent = true := by rw [S.silent]; exact hsil
    have hin : st.stdin = inp.stdin := S.stdin_silent hs
    have hempty : ∀ s rest, getpass_stdin st.stdin = some (s, rest) → s = [] := by
      intro s rest hg
      rw [hin] at hg
      unfold NoSecret stdinSecret at hno
      rw [hg] at hno
      rcases hno with c | c
      · exact absurd c (by simp)
      · exact Option.some.inj c
    obtain ⟨tr2, h2⟩ := @readMasterPassword_silent_empty pf st hs hempty
    refine ⟨tr ++ tr2, ?_⟩
    unfold front
    rw [hst, Step.bind_go, h2]
    rfl
  refine ⟨?_, ?_, ?_⟩
  · intro n p v h
    obtain ⟨tr, st, hf, he⟩ := mem_main_trace h rfl
    obtain ⟨_, hp, _⟩ := mem_output_masterKey he
    obtain ⟨s, hs, hne⟩ := (front_go hf).secret
    exact ⟨s, by rw [hp, hs], hne⟩
  · intro hsil hline
    have hend : ∃ tr x, front pf inp = .stop tr x ∧
        (x = .exit 2 ∨ (x = .exit 0 ∧ Event.err Msg.usage ∈ tr) ∨ x = .undefined) ∧
        ((∃ tr0 st, settled pf inp = .go tr0 st) → x = .exit 2) := by
      cases hst : settled pf inp with
      | go tr st =>
        obtain ⟨tr2, h2⟩ := silentStop tr st hst hsil hline
        exact ⟨tr2, _, h2, Or.inl rfl, fun _ => rfl⟩
      | stop tr x =>
        refine ⟨tr, x, front_of_settled_stop hst, settled_stop hst, ?_⟩
        rintro ⟨tr0, st, h0⟩
        exact absurd h0 (by simp)
    obtain ⟨tr, x, hf, hx, hreach⟩ := hend
    refine ⟨?_, tr, x, main_of_front_stop hf, hx, hreach⟩
    intro e he
    rw [main_of_front_stop hf] at he
    exact not_derivation_of_early (early_of_front_stop hf e he)
  · intro tr st junk s more hst hsil hno htty hj hne
    have S := settled_go hst
    have hs : st.silent = false := by rw [S.silent]; exact hsil
    obtain ⟨tr2, h2, hc⟩ := @readMasterPassword_prompt pf st hs hno junk s more
      (by rw [S.tty]; exact htty) hj hne
    have hfront : front pf inp =
        .go (tr ++ tr2) { st with masterPassword := some s, tty := more } := by
      unfold front
      rw [hst, Step.bind_go, h2]
      rfl
    refine ⟨tr2, hfront, hc, ?_⟩
    rw [main_of_front_go hfront, Step.trace_pre]
    apply List.mem_append_right
    unfold output
    dsimp only
    cases pf.mpw_masterKeyForUser st.fullName (some s) st.algorithmVersion with
    | none => simp [Step.trace]
    | some key =>
      dsimp only
      cases pf.mpw_passwordForSite key st.siteName st.siteType st.siteCounter st.siteVariant
          st.siteContextString st.algorithmVersion with
      | none => simp [Step.trace]
      | some sp => simp [Step.trace]

/-- Witness of C4, amended: the interactive run `promptRun` calls the key derivation with
the secret `pw` after three prompts, and the silent run `silentEmptyRun`, whose line on
stdin is empty, reaches line 224 and ends with status 2 without a derivation call. -/
theorem masterKey_secret_never_empty_witness :
    (∃ s, some ['p', 'w'] = some s ∧ s ≠ []) ∧
    (silentGiven silentEmptyRun.opts = true ∧ LineMissingOrEmpty silentEmptyRun.stdin ∧
      (∀ e ∈ (main examplePlatform silentEmptyRun).trace, e.isDerivation = false) ∧
      (∃ tr x, main examplePlatform silentEmptyRun = .stop tr x ∧
        (x = .exit 2 ∨ (x = .exit 0 ∧ Event.err Msg.usage ∈ tr) ∨ x = .undefined) ∧
        ((∃ tr0 st, settled examplePlatform silentEmptyRun = .go tr0 st) → x = .exit 2))) ∧
    (∃ tr0 st, settled examplePlatform silentEmptyRun = .go tr0 st) ∧
    (∃ tr2, front examplePlatform promptRun =
        .go ([] ++ tr2) { promptState with masterPassword := some ['p', 'w'], tty := [] } ∧
      tr2.count (Event.ask Prompt.masterPassword) =
        ([none, some []] : List (Option CStr)).length + 1 ∧
      Event.masterKeyForUser promptState.fullName (some ['p', 'w'])
        promptState.algorithmVersion ∈ (main examplePlatform promptRun).trace) :=
  ⟨(masterKey_secret_never_empty examplePlatform promptRun).1
      (some ['b', 'o', 'b']) (some ['p', 'w']) 3 (by decide),
    ⟨by decide, Or.inr ⟨[], rfl⟩,
      (masterKey_secret_never_empty examplePlatform silentEmptyRun).2.1
        (by decide) (Or.inr ⟨[], rfl⟩)⟩,
    ⟨[], { promptState with silent := true, stdin := [NL], tty := [] }, by decide⟩,
    (masterKey_secret_never_empty examplePlatform promptRun).2.2
      [] promptState [none, some []] ['p', 'w'] [] (by decide) (by decide)
      (Or.inl rfl) (by decide)
      (by
        intro a ha
        simp only [List.mem_cons, List.mem_singleton, List.not_mem_nil, or_false] at ha
        rcases ha with ha | ha
        · exact Or.inl ha
        · exact Or.inr ha)
      (by decide)⟩

/-- C1, as the claim states it, fails on the run `mpw -c 0 -h x`: the effective site counter
is 0, and the run ends with the usage text and exit status 0, not with the fatal error
`Invalid site counter` and status 2. -/
theorem counter_zero_usage_exit :
    resolvedCounter counterZeroHelpRun = 0 ∧
    main examplePlatform counterZeroHelpRun = .stop [.err .usage] (.exit 0) := by
  decide

/-- C1, amended: when the effective site counter (from `-c`, else `MP_SITECOUNTER`, else 1,
converted with `atol` and truncated to 32 bits) is 0, `main` never calls
`mpw_masterKeyForUser` or `mpw_passwordForSite` and ends through `exit`; when the
environment check, the option loop and the resolution of the two names (lines 111-190) pass,
it ends with the fatal error `Invalid site counter: 0` and status 2, and otherwise with the
earlier fatal error (status 2) or with the usage text (status 0). -/
theorem counter_zero_never_derives (pf : Platform) (inp : Input)
    (h0 : resolvedCounter inp = 0) :
    (∀ e ∈ (main pf inp).trace, e.isDerivation = false) ∧
    (∃ tr, main pf inp = .stop tr (.exit 2) ∨
      (main pf inp = .stop tr (.exit 0) ∧ Event.err Msg.usage ∈ tr)) ∧
    (∀ tr st, names pf inp = .go tr st →
      main pf inp = .stop (tr ++ [.err (.invalidSiteCounter 0)]) (.exit 2)) := by
  have hmain : ∃ tr x, main pf inp = .stop tr x ∧
      (x = .exit 2 ∨ (x = .exit 0 ∧ Event.err Msg.usage ∈ tr)) := by
    cases hn : names pf inp with
    | go tr st => exact ⟨_, _, main_of_counter_zero hn h0, Or.inl rfl⟩
    | stop tr x => exact ⟨tr, x, main_of_names_stop hn, names_stop hn⟩
  obtain ⟨tr, x, hm, hx⟩ := hmain
  refine ⟨?_, ?_, ?_⟩
  · intro e he
    rw [hm] at he
    cases hf : front pf inp with
    | go tr1 st1 =>
      rw [main_of_front_go hf] at hm
      obtain ⟨tr2, h2, _⟩ := Step.pre_eq_stop hm
      have R := front_go hf
      exact absurd (R.siteCounter.trans h0) R.siteCounter_pos
    | stop tr1 x1 =>
      rw [main_of_front_stop hf] at hm
      injection hm with h1 h2
      subst h1
      exact not_derivation_of_early (early_of_front_stop hf e he)
  · rcases hx with hx | hx
    · exact ⟨tr, Or.inl (by rw [hm, hx])⟩
    · exact ⟨tr, Or.inr ⟨by rw [hm, hx.1], hx.2⟩⟩
  · intro tr1 st1 hn
    exact main_of_counter_zero hn h0

/-- Witness of C1, amended: the run `mpw -u bob -c 0 site`. -/
theorem counter_zero_never_derives_witness :
    resolvedCounter counterZeroRun = 0 ∧
    ((∀ e ∈ (main examplePlatform counterZeroRun).trace, e.isDerivation = false) ∧
    (∃ tr, main examplePlatform counterZeroRun = .stop tr (.exit 2) ∨
      (main examplePlatform counterZeroRun = .stop tr (.exit 0) ∧ Event.err Msg.usage ∈ tr)) ∧
    (∀ tr st, names examplePlatform counterZeroRun = .go tr st →
      main examplePlatform counterZeroRun =
        .stop (tr ++ [.err (.invalidSiteCounter 0)]) (.exit 2))) :=
  ⟨by decide, counter_zero_never_derives examplePlatform counterZeroRun (by decide)⟩

/-- C2, as the claim states it, fails on the run `mpw -h x`: nothing is written to standard
output, and the process ends with status 0. -/
theorem usage_exit_status_zero :
    main examplePlatform helpRun = .stop [.err .usage] (.exit 0) ∧
    stdoutOf (main examplePlatform helpRun).trace = [] := by
  decide

/-- C2, amended: standard output receives either nothing at all, and then the run ends with
exit status 2, or with exit status 0 after the usage text, or in the undefined behaviour of
the configuration lookup, or in the endless password prompt; or it receives exactly the string
returned by `mpw_passwordForSite`, applied to the key returned by `mpw_masterKeyForUser` for
the resolved full name, master password and version and to the resolved site parameters
with the same version, followed by one newline, and `main` returns 0.  When key derivation or
synthesis returns NULL, nothing is written and the status is 2. -/
theorem stdout_all_or_nothing (pf : Platform) (inp : Input) :
    ((∃ tr x, main pf inp = .stop tr x ∧ stdoutOf tr = [] ∧
        (x = .exit 2 ∨ (x = .exit 0 ∧ Event.err Msg.usage ∈ tr) ∨ x = .undefined ∨
          x = .hang)) ∨
      (∃ tr st key sp, front pf inp = .go tr st ∧ Resolved pf inp st ∧
        pf.mpw_masterKeyForUser st.fullName st.masterPassword st.algorithmVersion = some key ∧
        pf.mpw_passwordForSite key st.siteName st.siteType st.siteCounter st.siteVariant
          st.siteContextString st.algorithmVersion = some sp ∧
        ∃ tr2, main pf inp = .go tr2 0 ∧ stdoutOf tr2 = sp ++ [NL])) ∧
    (∀ tr st, front pf inp = .go tr st →
      (pf.mpw_masterKeyForUser st.fullName st.masterPassword st.algorithmVersion = none ∨
        ∃ key,
          pf.mpw_masterKeyForUser st.fullName st.masterPassword st.algorithmVersion =
            some key ∧
          pf.mpw_passwordForSite key st.siteName st.siteType st.siteCounter st.siteVariant
            st.siteContextString st.algorithmVersion = none) →
      ∃ tr2, main pf inp = .stop tr2 (.exit 2) ∧ stdoutOf tr2 = []) := by
  have key : ∀ tr st, front pf inp = .go tr st →
      (pf.mpw_masterKeyForUser st.fullName st.masterPassword st.algorithmVersion = none ∨
        ∃ key,
          pf.mpw_masterKeyForUser st.fullName st.masterPassword st.algorithmVersion =
            some key ∧
          pf.mpw_passwordForSite key st.siteName st.siteType st.siteCounter st.siteVariant
            st.siteContextString st.algorithmVersion = none) →
      ∃ tr2, main pf inp = .stop tr2 (.exit 2) ∧ stdoutOf tr2 = [] := by
    intro tr st hf hnull
    have he := stdoutOf_early (early_of_front_go hf)
    rw [main_of_front_go hf]
    unfold output
    rcases hnull with hk | ⟨key, hk, hp⟩
    · rw [hk]
      exact ⟨_, rfl, by rw [stdoutOf_append, he]; rfl⟩
    · rw [hk]
      dsimp only
      rw [hp]
      exact ⟨_, rfl, by rw [stdoutOf_append, he]; rfl⟩
  refine ⟨?_, key⟩
  cases hf : front pf inp with
  | stop tr x =>
    exact Or.inl ⟨tr, x, main_of_front_stop hf, stdoutOf_early (early_of_front_stop hf),
      front_stop hf⟩
  | go tr st =>
    cases hk : pf.mpw_masterKeyForUser st.fullName st.masterPassword st.algorithmVersion with
    | none =>
      obtain ⟨tr2, h1, h2⟩ := key tr st hf (Or.inl hk)
      exact Or.inl ⟨tr2, _, h1, h2, Or.inl rfl⟩
    | some k =>
      cases hp : pf.mpw_passwordForSite k st.siteName st.siteType st.siteCounter
          st.siteVariant st.siteContextString st.algorithmVersion with
      | none =>
        obtain ⟨tr2, h1, h2⟩ := key tr st hf (Or.inr ⟨k, hk, hp⟩)
        exact Or.inl ⟨tr2, _, h1, h2, Or.inl rfl⟩
      | some sp =>
        refine Or.inr ⟨tr, st, k, sp, rfl, front_go hf, hk, hp, ?_⟩
        have he := stdoutOf_early (early_of_front_go hf)
        rw [main_of_front_go hf]
        unfold output
        rw [hk]
        dsimp only
        rw [hp]
        exact ⟨_, rfl, by rw [stdoutOf_append, he]; rfl⟩

/-- Witness of C2, amended: in the run `mpw -u bob -P pw site` on a platform whose key
derivation returns NULL, nothing is written and the status is 2. -/
theorem stdout_all_or_nothing_witness :
    ∃ tr2,
      main { examplePlatform with mpw_masterKeyForUser := fun _ _ _ => none } plainRun =
        .stop tr2 (.exit 2) ∧
      stdoutOf tr2 = [] :=
  (stdout_all_or_nothing { examplePlatform with mpw_masterKeyForUser := fun _ _ _ => none }
    plainRun).2 [.secret .optionP ['p', 'w'], .summary (some ['b', 'o', 'b']) (some ['s']) []]
    plainState (by decide) (Or.inl rfl)

/-- C5, as the claim states it, fails on the run `mpw -u "" -P pw ""`: the full name and the
site name are empty, and `main` calls `mpw_masterKeyForUser` with the empty full name and
`mpw_passwordForSite` with the empty site name, and returns 0. -/
theorem empty_names_accepted :
    Event.masterKeyForUser (some []) (some ['p', 'w']) 3 ∈
      (main examplePlatform emptyNamesRun).trace ∧
    Event.passwordForSite [1] (some []) MPSiteType.GeneratedLong 1 MPSiteVariant.Password
      none 3 ∈ (main examplePlatform emptyNamesRun).trace ∧
    ∃ tr, main examplePlatform emptyNamesRun = .go tr 0 := by
  refine ⟨by decide, by decide, _, rfl⟩

/-- C5, amended: when the options parse and the full name is absent (neither `-u` nor
`MP_FULLNAME`) while `-s` is given or stdin is at end of file, `main` ends with the fatal
error `Missing full name.` and status 2; when a full name is supplied, no site argument is
given, and `-s` is given or stdin is at end of file, `main` ends with the fatal error
`Missing site name.` and status 2; in both cases it calls neither `mpw_masterKeyForUser` nor
`mpw_passwordForSite`. -/
theorem absent_name_rejected (pf : Platform) (inp : Input) (tr : List Event) (st : State)
    (hp : parsed pf inp = .go tr st)
    (hs : silentGiven inp.opts = true ∨ inp.stdin = []) :
    (supplied 'u' inp.env_fullname inp.opts = none →
      ∃ tr2, main pf inp = .stop tr2 (.exit 2) ∧ Event.err Msg.missingFullName ∈ tr2 ∧
        ∀ e ∈ tr2, e.isDerivation = false) ∧
    (supplied 'u' inp.env_fullname inp.opts ≠ none → inp.site = none →
      ∃ tr2, main pf inp = .stop tr2 (.exit 2) ∧ Event.err Msg.missingSiteName ∈ tr2 ∧
        ∀ e ∈ tr2, e.isDerivation = false) := by
  have P := parsed_go hp
  have hs2 : st.silent = true ∨ st.stdin = [] := by
    rw [P.silent, P.stdin]
    exact hs
  refine ⟨?_, ?_⟩
  · intro hn
    obtain ⟨tr2, h2, hmem, _⟩ := resolveFullName_missing (by rw [P.fullName]; exact hn) hs2
    have hnames : names pf inp = .stop (tr ++ tr2) (.exit 2) := by
      unfold names
      rw [hp, Step.bind_go, h2]
      rfl
    have hm := main_of_names_stop hnames
    exact ⟨_, hm, List.mem_append_right _ hmem, quiet_of_names_stop hnames⟩
  · intro hn hsite
    have hfn : ∃ n, st.fullName = some n := by
      rw [P.fullName]
      cases hsup : supplied 'u' inp.env_fullname inp.opts with
      | none => exact absurd hsup hn
      | some n => exact ⟨n, rfl⟩
    obtain ⟨n, hfn⟩ := hfn
    have h1 : resolveFullName st = .go [] st := by
      unfold resolveFullName
      rw [hfn]
    obtain ⟨tr2, h2, hmem, _⟩ := resolveSiteName_missing (by rw [P.siteName]; exact hsite) hs2
    have hnames : names pf inp = .stop (tr ++ [] ++ tr2) (.exit 2) := by
      unfold names
      rw [hp, Step.bind_go, h1]
      show (((Step.go [] st).pre tr).bind resolveSiteName) = _
      show (Step.go (tr ++ []) st).bind resolveSiteName = _
      rw [Step.bind_go, h2]
      rfl
    have hm := main_of_names_stop hnames
    exact ⟨_, hm, List.mem_append_right _ hmem, quiet_of_names_stop hnames⟩

/-- Witness of C5, amended: the silent run `mpw -s site` has no full name, and the run
`mpw -u bob` at end of file has no site name. -/
theorem absent_name_rejected_witness :
    (∃ tr2, main examplePlatform silentNoNameRun = .stop tr2 (.exit 2) ∧
      Event.err Msg.missingFullName ∈ tr2 ∧ ∀ e ∈ tr2, e.isDerivation = false) ∧
    (∃ tr2, main examplePlatform noSiteRun = .stop tr2 (.exit 2) ∧
      Event.err Msg.missingSiteName ∈ tr2 ∧ ∀ e ∈ tr2, e.isDerivation = false) :=
  ⟨(absent_name_rejected examplePlatform silentNoNameRun [] silentNoNameState (by decide)
      (Or.inl (by decide))).1 (by decide),
    (absent_name_rejected examplePlatform noSiteRun [] noSiteState (by decide)
      (Or.inr (by decide))).2 (by decide) (by decide)⟩

/-- C6, as the claim states it, fails on two runs.  In `mpw -u bob -P pw -c 0 site` the copy
of the `-P` secret is made, and the run ends with the fatal error about the counter without
any call of `mpw_freeString`.  In `mpw -u bob -P pw -s site` with the line `x` on stdin the
run returns 0 and `mpw_freeString` is called once, on the line from stdin, and never on the
copy of the `-P` secret. -/
theorem secret_not_released :
    main examplePlatform leakRun =
      .stop [.secret .optionP ['p', 'w'], .err (.invalidSiteCounter 0)] (.exit 2) ∧
    main examplePlatform supersededRun =
      .go [.secret .optionP ['p', 'w'], .secret .stdinLine ['x'],
        .masterKeyForUser (some ['b', 'o', 'b']) (some ['x']) 3, .freeString (some ['x']),
        .passwordForSite [1] (some ['s']) MPSiteType.GeneratedLong 1 MPSiteVariant.Password
          none 3,
        .free [1], .out ['p', 'w']] 0 := by
  decide

/-- C6, amended: on every exit path of `main`, the master secret that was passed to
`mpw_masterKeyForUser` has been released with `mpw_freeString` and a derived master key has
been released with `mpw_free` before the process ends.  Each call of `mpw_masterKeyForUser`
is directly followed by `mpw_freeString` on the master password that was passed, and each
call of `mpw_passwordForSite` is directly followed by `mpw_free` on the master key that was
passed; both releases come before the result of the call is tested, so they also happen
when the call fails.  A run that calls the key derivation ends by returning 0 or through
`exit (2)`, after these releases. -/
theorem released_right_after_use (pf : Platform) (inp : Input) :
    (∀ n p v,
      FollowedBy (main pf inp).trace (Event.masterKeyForUser n p v) (Event.freeString p)) ∧
    (∀ k sn t c va cx v,
      FollowedBy (main pf inp).trace (Event.passwordForSite k sn t c va cx v)
        (Event.free k)) ∧
    (∀ n p v, Event.masterKeyForUser n p v ∈ (main pf inp).trace →
      Event.freeString p ∈ (main pf inp).trace ∧
      (∀ key, pf.mpw_masterKeyForUser n p v = some key →
        Event.free key ∈ (main pf inp).trace) ∧
      ((∃ tr, main pf inp = .go tr 0) ∨ (∃ tr, main pf inp = .stop tr (.exit 2)))) := by
  refine ⟨fun n p v =>
      followedBy_main pf inp _ _ rfl (fun st => followedBy_output_key pf st n p v),
    fun k sn t c va cx v =>
      followedBy_main pf inp _ _ rfl (fun st => followedBy_output_site pf st k sn cx t c v va),
    ?_⟩
  intro n p v h
  obtain ⟨tr, st, hf, he⟩ := mem_main_trace h rfl
  have hm := main_of_front_go hf
  refine ⟨?_, ?_, ?_⟩
  · rw [hm, Step.trace_pre]
    exact List.mem_append_right _ (mem_output_freeString he)
  · intro key hk
    rw [hm, Step.trace_pre]
    exact List.mem_append_right _ (mem_output_free he hk)
  · rcases output_ends pf st with ⟨tr2, h2⟩ | ⟨tr2, h2⟩
    · exact Or.inl ⟨tr ++ tr2, by rw [hm, h2]; rfl⟩
    · exact Or.inr ⟨tr ++ tr2, by rw [hm, h2]; rfl⟩

/-- Witness of C6, amended: in the run `mpw -u bob -P pw site` on a platform whose key
derivation fails, the call is still followed by the release of the secret; on the example
platform the derived key `[1]` is released and the run returns 0. -/
theorem released_right_after_use_witness :
    (∃ rest, [Event.freeString (some ['p', 'w']), Event.err Msg.noMasterKey] =
      Event.freeString (some ['p', 'w']) :: rest) ∧
    Event.masterKeyForUser (some ['b', 'o', 'b']) (some ['p', 'w']) 3 ∈
      (main examplePlatform plainRun).trace ∧
    (Event.freeString (some ['p', 'w']) ∈ (main examplePlatform plainRun).trace ∧
      (∀ key,
        examplePlatform.mpw_masterKeyForUser (some ['b', 'o', 'b']) (some ['p', 'w']) 3 =
          some key →
        Event.free key ∈ (main examplePlatform plainRun).trace) ∧
      ((∃ tr, main examplePlatform plainRun = .go tr 0) ∨
        (∃ tr, main examplePlatform plainRun = .stop tr (.exit 2)))) :=
  ⟨(released_right_after_use
      { examplePlatform with mpw_masterKeyForUser := fun _ _ _ => none } plainRun).1
      (some ['b', 'o', 'b']) (some ['p', 'w']) 3
      [.secret .optionP ['p', 'w'], .summary (some ['b', 'o', 'b']) (some ['s']) []]
      [.freeString (some ['p', 'w']), .err .noMasterKey] (by decide),
    by decide,
    (released_right_after_use examplePlatform plainRun).2.2
      (some ['b', 'o', 'b']) (some ['p', 'w']) 3 (by decide)⟩

/-- C7, as the claim states it, fails on the run `mpw -u bob -P pw -V 2 site` with
`MP_ALGORITHM=x`: the option `-V 2` is valid, and the run ends with the fatal error
`Invalid MP_ALGORITHM: x` before any option is read. -/
theorem valid_option_bad_environment :
    sscanf_u ['2'] = some 2 ∧
    main examplePlatform badEnvironmentRun = .stop [.err (.invalidAlgorithm ['x'])] (.exit 2) := by
  decide

/-- C7, amended: in every call of `mpw_masterKeyForUser` and `mpw_passwordForSite` that
`main` makes, the full name is the `-u` argument, else `MP_FULLNAME`, else the line typed
at the prompt; the site type is `mpw_typeWithName` of the `-t` argument, else of
`MP_SITETYPE`, else the default of the variant; the counter is the `-c` argument, else
`MP_SITECOUNTER`, converted, else 1; and the version, the same in both calls, is the number
in the `-V` argument, else in a non-empty `MP_ALGORITHM`, else `MPAlgorithmVersionCurrent`.
The variable `MP_ALGORITHM` is checked before the options are read: a run in which it is
non-empty and not a number ends at once with the fatal error `Invalid MP_ALGORITHM`,
whatever the options are. -/
theorem parameters_resolved (pf : Platform) (inp : Input) :
    (∀ n p v, Event.masterKeyForUser n p v ∈ (main pf inp).trace →
      n = resolvedFullName inp ∧ resolvedVersion pf inp = some v ∧
      (∀ a, lastArg 'u' inp.opts = some a → n = some a) ∧
      (∀ a, lastArg 'u' inp.opts = none → inp.env_fullname = some a → n = some a)) ∧
    (∀ k sn t c va cx v, Event.passwordForSite k sn t c va cx v ∈ (main pf inp).trace →
      t = resolvedType pf inp ∧ c = resolvedCounter inp ∧ resolvedVersion pf inp = some v ∧
      (∀ a, lastArg 't' inp.opts = some a → t = pf.mpw_typeWithName a) ∧
      (∀ a, lastArg 'c' inp.opts = some a → c = uint32 (atol a)) ∧
      (∀ a, lastArg 'V' inp.opts = some a → sscanf_u a = some v) ∧
      (supplied 'c' inp.env_sitecounter inp.opts = none → c = 1) ∧
      (lastArg 'V' inp.opts = none → inp.env_algorithm = none →
        v = pf.MPAlgorithmVersionCurrent)) ∧
    (∀ e, inp.env_algorithm = some e → e.length ≠ 0 → sscanf_u e = none →
      main pf inp = .stop [.err (.invalidAlgorithm e)] (.exit 2)) := by
  refine ⟨?_, ?_, ?_⟩
  · intro n p v h
    obtain ⟨tr, st, hf, he⟩ := mem_main_trace h rfl
    obtain ⟨hn, _, hv⟩ := mem_output_masterKey he
    have R := front_go hf
    have hn2 : n = resolvedFullName inp := by rw [hn]; exact R.fullName
    refine ⟨hn2, by rw [hv]; exact R.algorithmVersion.symm, ?_, ?_⟩
    · intro a ha
      rw [hn2]
      unfold resolvedFullName supplied
      rw [ha]
    · intro a ha he
      rw [hn2]
      unfold resolvedFullName supplied
      rw [ha, he]
  · intro k sn t c va cx v h
    obtain ⟨tr, st, hf, he⟩ := mem_main_trace h rfl
    obtain ⟨_, _, ht, hc, _, _, hv⟩ := mem_output_site he
    have R := front_go hf
    have ht2 : t = resolvedType pf inp := by rw [ht]; exact R.siteType
    have hc2 : c = resolvedCounter inp := by rw [hc]; exact R.siteCounter
    have hv2 : resolvedVersion pf inp = some v := by rw [hv]; exact R.algorithmVersion.symm
    refine ⟨ht2, hc2, hv2, ?_, ?_, ?_, ?_, ?_⟩
    · intro a ha
      rw [ht2]
      unfold resolvedType supplied
      rw [ha]
    · intro a ha
      rw [hc2]
      unfold resolvedCounter supplied
      rw [ha]
    · intro a ha
      rw [← hv2]
      unfold resolvedVersion
      rw [ha]
    · intro hn
      rw [hc2]
      unfold resolvedCounter
      rw [hn]
    · intro h1 h2
      unfold resolvedVersion at hv2
      rw [h1, h2] at hv2
      exact (Option.some.inj hv2).symm
  · intro e he hl hs
    have hr : readEnvironment pf inp = .stop [.err (.invalidAlgorithm e)] (.exit 2) := by
      unfold readEnvironment
      simp only [he, if_neg hl, hs]
      rfl
    unfold main front settled names parsed
    rw [hr]
    rfl

/-- Witness of C7, amended: in the run `mpw -u bob -P pw -V 2 -c 7 site` with
`MP_ALGORITHM=1` and `MP_SITECOUNTER=5`, the synthesizer is called with version 2 and
counter 7. -/
theorem parameters_resolved_witness :
    (7 : Nat) = resolvedCounter overrideRun ∧
    resolvedVersion examplePlatform overrideRun = some 2 ∧
    (∀ a, lastArg 'c' overrideRun.opts = some a → (7 : Nat) = uint32 (atol a)) ∧
    main examplePlatform badEnvironmentRun =
      .stop [.err (.invalidAlgorithm ['x'])] (.exit 2) :=
  have h := (parameters_resolved examplePlatform overrideRun).2.1 [1] (some ['s'])
    MPSiteType.GeneratedLong 7 MPSiteVariant.Password none 2 (by decide)
  ⟨h.2.1, h.2.2.1, h.2.2.2.2.1,
    (parameters_resolved examplePlatform badEnvironmentRun).2.2 ['x'] rfl (by decide)
      (by decide)⟩

/-- C8, as the claim states it, fails on three runs: with `-c -1` the synthesizer is called
with counter 4294967295, with `-c 1x` it is called with counter 1, and with
`-c 4294967297` it is called with counter 1; none of the three texts is rejected. -/
theorem invalid_counter_accepted :
    Event.passwordForSite [1] (some ['s']) MPSiteType.GeneratedLong 4294967295
      MPSiteVariant.Password none 3 ∈ (main examplePlatform negativeCounterRun).trace ∧
    Event.passwordForSite [1] (some ['s']) MPSiteType.GeneratedLong 1
      MPSiteVariant.Password none 3 ∈ (main examplePlatform trailingTextRun).trace ∧
    Event.passwordForSite [1] (some ['s']) MPSiteType.GeneratedLong 1
      MPSiteVariant.Password none 3 ∈ (main examplePlatform largeCounterRun).trace := by
  decide

/-- C8, amended: for a counter text `s` supplied through `-c` or `MP_SITECOUNTER`, `main`
works with `atol (s)` truncated to 32 bits.  When that value is 0, `main` never invokes the
synthesizer (nor the key derivation); otherwise every call of `mpw_passwordForSite` gets
exactly that value; and when `s` is a decimal numeral for an integer `n` with
`1 ≤ n < 2^32`, that value is `n`. -/
theorem counter_is_atol_truncated (pf : Platform) (inp : Input) (s : CStr)
    (hs : supplied 'c' inp.env_sitecounter inp.opts = some s) :
    (uint32 (atol s) = 0 → ∀ e ∈ (main pf inp).trace, e.isDerivation = false) ∧
    (∀ k sn t c va cx v, Event.passwordForSite k sn t c va cx v ∈ (main pf inp).trace →
      c = uint32 (atol s) ∧ c ≠ 0 ∧
      (∀ n, Denotes s n → 1 ≤ n → n < 2 ^ 32 → c = n)) := by
  have hr : resolvedCounter inp = uint32 (atol s) := by
    unfold resolvedCounter
    rw [hs]
  refine ⟨?_, ?_⟩
  · intro h0 e he
    cases hf : front pf inp with
    | go tr st =>
      have R := front_go hf
      exact absurd (R.siteCounter.trans (hr.trans h0)) R.siteCounter_pos
    | stop tr x =>
      rw [main_of_front_stop hf] at he
      exact not_derivation_of_early (early_of_front_stop hf e he)
  · intro k sn t c va cx v h
    obtain ⟨tr, st, hf, he⟩ := mem_main_trace h rfl
    obtain ⟨_, _, _, hc, _, _, _⟩ := mem_output_site he
    have R := front_go hf
    have hc2 : c = uint32 (atol s) := by rw [hc, R.siteCounter, hr]
    refine ⟨hc2, by rw [hc]; exact R.siteCounter_pos, ?_⟩
    intro n hd _ hn
    rw [hc2]
    exact uint32_of_denotes hd hn

/-- Witness of C8, amended: the run `mpw -u bob -P pw -c 42 site` calls the synthesizer
with counter 42. -/
theorem counter_is_atol_truncated_witness :
    supplied 'c' counter42Run.env_sitecounter counter42Run.opts = some ['4', '2'] ∧
    Denotes ['4', '2'] 42 ∧
    ((42 : Nat) = uint32 (atol ['4', '2']) ∧ (42 : Nat) ≠ 0 ∧
    (∀ n, Denotes ['4', '2'] n → 1 ≤ n → n < 2 ^ 32 → (42 : Nat) = n)) :=
  ⟨by decide, ⟨by decide, by decide, by decide⟩,
    (counter_is_atol_truncated examplePlatform counter42Run ['4', '2'] (by decide)).2
      [1] (some ['s']) MPSiteType.GeneratedLong 42 MPSiteVariant.Password none 3
      (by decide)⟩

/-- C9: the code at the failing input.  In silent mode with the bytes `secret` on standard
input and no newline after them, `getpass_stdin` overwrites the last byte of the line, and
the master password passed to `mpw_masterKeyForUser` is `secre`, not the first line with
its terminator removed. -/
theorem silent_unterminated_line_loses_last_byte :
    getline unterminatedRun.stdin = some (['s', 'e', 'c', 'r', 'e', 't'], []) ∧
    main examplePlatform unterminatedRun =
      .go [.secret .stdinLine ['s', 'e', 'c', 'r', 'e'],
        .masterKeyForUser (some ['b', 'o', 'b']) (some ['s', 'e', 'c', 'r', 'e']) 3,
        .freeString (some ['s', 'e', 'c', 'r', 'e']),
        .passwordForSite [1] (some ['s']) MPSiteType.GeneratedLong 1 MPSiteVariant.Password
          none 3,
        .free [1], .out ['p', 'w']] 0 := by
  decide

/-- C10: the code at two failing inputs, for either order of evaluation on line 218.  When
the configuration file holds the line `bob` (no colon) and the full name is `bob`, the line is
taken although it has no colon, `lineData` is NULL, and `strlen (lineData)` is undefined.
When the file holds `bob:secret` without a final newline, the copy of the secret needs one
byte more than the block that `malloc (strlen (lineData))` gives (or `lineData` is NULL,
when `strsep` runs first).  In both runs `main` gets no secret from the file. -/
theorem config_lookup_undefined (pf : Platform) :
    main pf noColonRun = .stop [.secret .optionP ['p', 'w']] .undefined ∧
    main pf noNewlineRun = .stop [.secret .optionP ['p', 'w']] .undefined := by
  refine ⟨rfl, ?_⟩
  obtain ⟨cur, variantOf, typeOf, identicon, keyFor, passwordFor, order⟩ := pf
  cases order <;> rfl

end MpwCli
